import Mathlib

set_option maxRecDepth 16384

/-!
Verification of the monty-rb Ruby binding (ext/monty/src).

The development shallowly embeds the binding's Rust sources:
  - monty_object.rs : the value bridge between Ruby values and the engine's
    MontyObject model (ruby_to_monty, monty_to_ruby, detect_bool);
  - errors.rs       : the exception taxonomy and the mapping functions
    (monty_error, syntax_error, resource_error, consumed_error,
    map_monty_exception, map_resource_error);
  - resource_limits.rs : parsing of the limits hash (parse_limits_hash);
  - monty_run.rs    : the Run session object with its consuming start and
    its blocking run variants, dump and load;
  - run_progress.rs : the suspension objects FunctionCall, PendingFutures,
    Complete and their one-shot resume operations.

The script engine itself (the monty crate) is an external collaborator:
its behavior is quantified over as an explicit Engine record of functions,
and values it produces are the MontyObject inductive below.  Ruby values
are the RubyValue inductive; machine integers are Int with explicit range
conditions; fallible operations return Except.
-/

/-- Kinds of Ruby-level exceptions the binding can raise.  The first three
are built-in Ruby exception classes raised by magnus conversions; the last
four are the classes registered by errors.rs under the Monty module. -/
inductive ErrKind where
  | typeError
  | argError
  | rangeError
  | runtimeError
  | montyError
  | syntaxError
  | resourceError
  | consumedError
  deriving DecidableEq

/-- A Ruby exception as observed by the caller: its class and its message. -/
structure RbError where
  kind : ErrKind
  message : String
  deriving DecidableEq

/-- Exception type tags of the engine's MontyException (monty crate).  Only
SyntaxError and RuntimeError are inspected by the binding; every other tag
is collapsed into `other` with its debug name. -/
inductive ExcType where
  | syntaxError
  | runtimeError
  | other (name : String)
  deriving DecidableEq

/-- Debug rendering of an ExcType, standing in for format with the Debug
formatter in Rust. -/
def excTypeRepr : ExcType → String
  | .syntaxError => "SyntaxError"
  | .runtimeError => "RuntimeError"
  | .other name => name

/-- An engine exception: its type tag and optional message (monty crate's
MontyException as consumed by the binding through exc_type and summary). -/
structure MontyException where
  excType : ExcType
  message : Option String
  deriving DecidableEq

/-- The summary text of an engine exception.  The engine renders this
internally; the binding only forwards it, so the exact rendering is opaque
and modelled as type plus message. -/
def MontyException.summary (e : MontyException) : String :=
  excTypeRepr e.excType ++ (match e.message with
    | some m => ": " ++ m
    | none => "")

/-- errors.rs monty_error: a generic Monty::Error with the given message
(the registered-class branch; define_exceptions has run at init). -/
def monty_error (message : String) : RbError :=
  ⟨ErrKind.montyError, message⟩

/-- errors.rs syntax_error: a Monty::SyntaxError with the given message. -/
def syntax_error (message : String) : RbError :=
  ⟨ErrKind.syntaxError, message⟩

/-- errors.rs resource_error: a Monty::ResourceError with the given message. -/
def resource_error (message : String) : RbError :=
  ⟨ErrKind.resourceError, message⟩

/-- errors.rs consumed_error: the Monty::ConsumedError raised whenever an
already-used one-shot object is operated on again. -/
def consumed_error : RbError :=
  ⟨ErrKind.consumedError, "this object has been consumed and can no longer be used"⟩

/-- errors.rs map_monty_exception: SyntaxError exceptions become
Monty::SyntaxError, everything else becomes the generic Monty::Error. -/
def map_monty_exception (exc : MontyException) : RbError :=
  if exc.excType = ExcType.syntaxError then syntax_error exc.summary
  else monty_error exc.summary

/-- The engine's resource-breach report (monty crate's ResourceError as
destructured by errors.rs).  Durations are modelled as whole numbers of
seconds since no claim depends on sub-second rendering. -/
inductive MResourceError where
  | allocation (limit count : Nat)
  | time (limitSecs elapsedSecs : Nat)
  | memory (limit used : Nat)
  | recursion (limit depth : Nat)
  | exception (exc : MontyException)

/-- errors.rs map_resource_error: renders the exceeded dimension together
with the observed value and the configured ceiling into a
Monty::ResourceError; a wrapped engine exception is forwarded to
map_monty_exception instead.  (Float second formatting of the Time arm is
modelled over whole seconds.) -/
def map_resource_error : MResourceError → RbError
  | .allocation limit count =>
      resource_error ("allocation limit exceeded: " ++ toString count ++
        " allocations (limit: " ++ toString limit ++ ")")
  | .time limitSecs elapsedSecs =>
      resource_error ("time limit exceeded: " ++ toString elapsedSecs ++
        "s elapsed (limit: " ++ toString limitSecs ++ "s)")
  | .memory limit used =>
      resource_error ("memory limit exceeded: " ++ toString used ++
        " bytes used (limit: " ++ toString limit ++ ")")
  | .recursion limit depth =>
      resource_error ("recursion limit exceeded: depth " ++ toString depth ++
        " (limit: " ++ toString limit ++ ")")
  | .exception exc => map_monty_exception exc

/-- The engine's tagged value model (monty crate's MontyObject, with the
constructors the binding matches on).  Fixed-width integers carry Int with
the i64 range as a side condition; float payloads are opaque bit patterns;
byte sequences are modelled by their content string; Type and
BuiltinFunction carry their debug rendering. -/
inductive MontyObject where
  | none
  | bool (b : Bool)
  | int (i : Int)
  | bigInt (i : Int)
  | float (bits : Nat)
  | string (s : String)
  | bytes (s : String)
  | list (items : List MontyObject)
  | tuple (items : List MontyObject)
  | namedTuple (fieldNames : List String) (values : List MontyObject)
  | dict (pairs : List (MontyObject × MontyObject))
  | set (items : List MontyObject)
  | frozenSet (items : List MontyObject)
  | dataclass (attrs : List (MontyObject × MontyObject))
  | ellipsis
  | type (debugRepr : String)
  | builtinFunction (debugRepr : String)
  | path (s : String)
  | reprVal (s : String)
  | cycle (id : Nat) (rendered : String)
  | exception (excType : ExcType) (arg : Option String)

/-- Ruby host values as the binding observes them.  A string carries a
binary flag (ASCII-8BIT encoding versus text); an array carries its frozen
flag; `other` stands for an object of any further class, carrying the
name string its class reports (what class followed by name returns). -/
inductive RubyValue where
  | nil
  | bool (b : Bool)
  | int (i : Int)
  | float (bits : Nat)
  | str (s : String) (binary : Bool)
  | sym (s : String)
  | array (items : List RubyValue) (frozen : Bool)
  | hash (pairs : List (RubyValue × RubyValue))
  | other (className : String)

/-- The name reported by a Ruby value's class (funcall class then name).
Built-in classes report their fixed names; an `other` object reports
whatever its class's name method returns. -/
def classNameOf : RubyValue → String
  | .nil => "NilClass"
  | .bool true => "TrueClass"
  | .bool false => "FalseClass"
  | .int _ => "Integer"
  | .float _ => "Float"
  | .str _ _ => "String"
  | .sym _ => "Symbol"
  | .array _ _ => "Array"
  | .hash _ => "Hash"
  | .other className => className

/-- monty_object.rs detect_bool: detect Ruby true and false by querying the
class name and comparing it with TrueClass and FalseClass. -/
def detect_bool (val : RubyValue) : Option Bool :=
  match classNameOf val with
  | "TrueClass" => some true
  | "FalseClass" => some false
  | _ => Option.none

/-- Lower bound of the i64 range used by the fixed-width fast path. -/
def i64Min : Int := -(2 ^ 63)

/-- Upper bound of the i64 range used by the fixed-width fast path. -/
def i64Max : Int := 2 ^ 63 - 1

/- Decimal string conversion.  ruby_to_monty converts oversized integers by
calling to_s and parsing the result as a BigInt; monty_to_ruby converts a
BigInt by rendering it with to_string and calling to_i on the Ruby side.
The rendering (natToDec, intToDec) and parsing (decToNat, decToInt) below
model those library functions over decimal digit lists. -/

/-- The decimal digits of n, least significant first, computed with
explicit fuel so the definition is structural (fuel n suffices). -/
def natDecDigitsF : Nat → Nat → List Nat
  | 0, _ => []
  | fuel + 1, n => if n = 0 then [] else n % 10 :: natDecDigitsF fuel (n / 10)

/-- The decimal digits of n, least significant first. -/
def natDecDigits (n : Nat) : List Nat := natDecDigitsF n n

/-- The character for one decimal digit. -/
def digitChar (d : Nat) : Char := Char.ofNat (48 + d)

/-- The numeric value of one decimal digit character. -/
def charDigitVal (c : Char) : Nat := c.toNat - 48

/-- Whether a character is a decimal digit. -/
def isDecDigit (c : Char) : Bool := 48 ≤ c.toNat && c.toNat ≤ 57

/-- Decimal rendering of a natural number, as produced by to_s and
to_string. -/
def natToDec (n : Nat) : String :=
  if n = 0 then "0" else String.mk (((natDecDigits n).map digitChar).reverse)

/-- Decimal rendering of an integer, as produced by to_s and to_string. -/
def intToDec (i : Int) : String :=
  if i < 0 then "-" ++ natToDec i.natAbs else natToDec i.natAbs

/-- Value of a little-endian decimal digit list. -/
def ofDecDigitsLE : List Nat → Nat
  | [] => 0
  | d :: ds => d + 10 * ofDecDigitsLE ds

/-- Parse a nonempty all-digit character list as a natural number. -/
def decToNat (cs : List Char) : Option Nat :=
  if cs ≠ [] ∧ cs.all isDecDigit then
    some (ofDecDigitsLE ((cs.reverse).map charDigitVal))
  else Option.none

/-- Parse a decimal integer with optional sign, as the BigInt parser does. -/
def decToInt (s : String) : Option Int :=
  match s.data with
  | [] => Option.none
  | c :: rest =>
      if c = '-' then
        match decToNat rest with
        | some n => some (-(n : Int))
        | Option.none => Option.none
      else if c = '+' then
        match decToNat rest with
        | some n => some ((n : Int))
        | Option.none => Option.none
      else
        match decToNat (c :: rest) with
        | some n => some ((n : Int))
        | Option.none => Option.none

/-- Ruby String#to_i on the strings the binding produces (full decimal
renderings); to_i never raises and yields 0 on no parse. -/
def rubyToI (s : String) : Int := (decToInt s).getD 0

/- The value bridge, monty_object.rs.  ruby_to_monty mirrors the source's
ordered classification: nil, detect_bool, Integer (i64 fast path, then
to_s and BigInt parse), Float, String, Symbol, Array, Hash, and a
TypeError for every other class.  Genuine booleans always pass the
detect_bool check, so their arm is written directly; an object of any
other class reaches the detect_bool test through its reported class name.
In the model an `other` object is not kind_of any built-in class (real
subclasses of built-ins are not distinguished). -/

mutual

/-- monty_object.rs ruby_to_monty: convert a Ruby value to a MontyObject. -/
def ruby_to_monty : RubyValue → Except RbError MontyObject
  | .nil => .ok .none
  | .bool b => .ok (.bool b)
  | .int i =>
      if i64Min ≤ i ∧ i ≤ i64Max then .ok (.int i)
      else
        match decToInt (intToDec i) with
        | some big => .ok (.bigInt big)
        | Option.none => .error ⟨ErrKind.argError, "invalid integer"⟩
  | .float bits => .ok (.float bits)
  | .str s _ => .ok (.string s)
  | .sym s => .ok (.string s)
  | .array items _ =>
      match rubyListToMonty items with
      | .ok ms => .ok (.list ms)
      | .error e => .error e
  | .hash pairs =>
      match rubyPairsToMonty pairs with
      | .ok ms => .ok (.dict ms)
      | .error e => .error e
  | .other className =>
      match detect_bool (.other className) with
      | some b => .ok (.bool b)
      | Option.none =>
          .error ⟨ErrKind.typeError,
            "cannot convert " ++ className ++ " to a Python object"⟩

/-- Element-wise conversion of a Ruby array's items (the recursion of the
Array arm, also ruby_array_to_monty_vec). -/
def rubyListToMonty : List RubyValue → Except RbError (List MontyObject)
  | [] => .ok []
  | v :: rest =>
      match ruby_to_monty v, rubyListToMonty rest with
      | .ok m, .ok ms => .ok (m :: ms)
      | .error e, _ => .error e
      | _, .error e => .error e

/-- Key-and-value conversion of a Ruby hash's pairs (hash_to_pairs). -/
def rubyPairsToMonty : List (RubyValue × RubyValue) →
    Except RbError (List (MontyObject × MontyObject))
  | [] => .ok []
  | (k, v) :: rest =>
      match ruby_to_monty k, ruby_to_monty v, rubyPairsToMonty rest with
      | .ok mk1, .ok mv, .ok ms => .ok ((mk1, mv) :: ms)
      | .error e, _, _ => .error e
      | _, .error e, _ => .error e
      | _, _, .error e => .error e

end

/-- monty_object.rs ruby_array_to_monty_vec: convert a Ruby array of values
to a vector of MontyObjects. -/
def ruby_array_to_monty_vec (items : List RubyValue) :
    Except RbError (List MontyObject) :=
  rubyListToMonty items

mutual

/-- monty_object.rs monty_to_ruby: convert a MontyObject to a Ruby value.
Tuples freeze the produced array; bytes force ASCII-8BIT encoding; named
tuples, dicts and dataclasses build hashes; sets become plain arrays;
Ellipsis becomes the symbol ellipsis; Type, BuiltinFunction, Path, Repr
and Cycle degrade to strings; an Exception value raises a Monty::Error
built from its message. -/
def monty_to_ruby : MontyObject → Except RbError RubyValue
  | .none => .ok .nil
  | .bool b => .ok (.bool b)
  | .int i => .ok (.int i)
  | .bigInt bi => .ok (.int (rubyToI (intToDec bi)))
  | .float bits => .ok (.float bits)
  | .string s => .ok (.str s false)
  | .bytes s => .ok (.str s true)
  | .list items =>
      match montyListToRuby items with
      | .ok rs => .ok (.array rs false)
      | .error e => .error e
  | .tuple items =>
      match montyListToRuby items with
      | .ok rs => .ok (.array rs true)
      | .error e => .error e
  | .namedTuple fieldNames values =>
      match namedTupleToRuby fieldNames values with
      | .ok prs => .ok (.hash prs)
      | .error e => .error e
  | .dict pairs =>
      match montyPairsToRuby pairs with
      | .ok prs => .ok (.hash prs)
      | .error e => .error e
  | .set items =>
      match montyListToRuby items with
      | .ok rs => .ok (.array rs false)
      | .error e => .error e
  | .frozenSet items =>
      match montyListToRuby items with
      | .ok rs => .ok (.array rs false)
      | .error e => .error e
  | .dataclass attrs =>
      match montyPairsToRuby attrs with
      | .ok prs => .ok (.hash prs)
      | .error e => .error e
  | .ellipsis => .ok (.sym "ellipsis")
  | .type debugRepr => .ok (.str debugRepr false)
  | .builtinFunction debugRepr => .ok (.str debugRepr false)
  | .path s => .ok (.str s false)
  | .reprVal s => .ok (.str s false)
  | .cycle _ rendered => .ok (.str rendered false)
  | .exception excType arg =>
      .error (monty_error (arg.getD (excTypeRepr excType)))

/-- Element-wise conversion of list, tuple and set items back to Ruby. -/
def montyListToRuby : List MontyObject → Except RbError (List RubyValue)
  | [] => .ok []
  | v :: rest =>
      match monty_to_ruby v, montyListToRuby rest with
      | .ok r, .ok rs => .ok (r :: rs)
      | .error e, _ => .error e
      | _, .error e => .error e

/-- Key-and-value conversion of dict and dataclass pairs back to Ruby. -/
def montyPairsToRuby : List (MontyObject × MontyObject) →
    Except RbError (List (RubyValue × RubyValue))
  | [] => .ok []
  | (k, v) :: rest =>
      match monty_to_ruby k, monty_to_ruby v, montyPairsToRuby rest with
      | .ok rk, .ok rv, .ok rs => .ok ((rk, rv) :: rs)
      | .error e, _, _ => .error e
      | _, .error e, _ => .error e
      | _, _, .error e => .error e

/-- The NamedTuple arm: zip field names with converted values into hash
pairs keyed by name strings (zipping stops at the shorter list). -/
def namedTupleToRuby : List String → List MontyObject →
    Except RbError (List (RubyValue × RubyValue))
  | name :: names, v :: vs =>
      match monty_to_ruby v, namedTupleToRuby names vs with
      | .ok rv, .ok rs => .ok ((.str name false, rv) :: rs)
      | .error e, _ => .error e
      | _, .error e => .error e
  | _, _ => .ok []

end

/- Resource limits, resource_limits.rs.  The options hash holds symbol
keys; a missing or nil entry means unbounded.  usize conversion raises a
RangeError outside the machine range and a TypeError for non-integers;
the duration key takes a Float (numeric coercion of other Ruby numerics
into Float is elided, durations being opaque here). -/

/-- The engine's ResourceLimits configuration built by the parser; absent
fields are unbounded.  The duration ceiling carries the Float payload. -/
structure ResourceLimits where
  maxAllocations : Option Nat := Option.none
  maxDurationBits : Option Nat := Option.none
  maxMemory : Option Nat := Option.none
  gcInterval : Option Nat := Option.none
  maxRecursionDepth : Option Nat := Option.none
  deriving DecidableEq

/-- The tracker installed into the engine for one run: either the no-limit
tracker or a limited tracker carrying a ResourceLimits configuration. -/
inductive Tracker where
  | noLimit
  | limited (limits : ResourceLimits)
  deriving DecidableEq

/-- Hash#[] with a symbol key as used by the option readers: the value of
the first symbol entry with the given name, nil when absent. -/
def limitsLookup : List (RubyValue × RubyValue) → String → RubyValue
  | [], _ => .nil
  | (.sym s, v) :: rest, key =>
      if s = key then v else limitsLookup rest key
  | _ :: rest, key => limitsLookup rest key

/-- resource_limits.rs get_optional_usize: nil means absent; an in-range
Integer converts; anything else raises. -/
def get_optional_usize (opts : List (RubyValue × RubyValue)) (key : String) :
    Except RbError (Option Nat) :=
  match limitsLookup opts key with
  | .nil => .ok Option.none
  | .int i =>
      if 0 ≤ i ∧ i < 2 ^ 64 then .ok (some i.toNat)
      else .error ⟨ErrKind.rangeError, "integer out of range for usize"⟩
  | _ => .error ⟨ErrKind.typeError, "no implicit conversion into Integer"⟩

/-- resource_limits.rs get_optional_f64: nil means absent; a Float
converts; anything else raises. -/
def get_optional_f64 (opts : List (RubyValue × RubyValue)) (key : String) :
    Except RbError (Option Nat) :=
  match limitsLookup opts key with
  | .nil => .ok Option.none
  | .float bits => .ok (some bits)
  | _ => .error ⟨ErrKind.typeError, "no implicit conversion into Float"⟩

/-- resource_limits.rs parse_limits_hash: read the five recognized keys in
order and fold them into a ResourceLimits. -/
def parse_limits_hash (opts : List (RubyValue × RubyValue)) :
    Except RbError ResourceLimits :=
  match get_optional_usize opts "max_allocations" with
  | .error e => .error e
  | .ok ma =>
    match get_optional_f64 opts "max_duration" with
    | .error e => .error e
    | .ok md =>
      match get_optional_usize opts "max_memory" with
      | .error e => .error e
      | .ok mm =>
        match get_optional_usize opts "gc_interval" with
        | .error e => .error e
        | .ok gi =>
          match get_optional_usize opts "max_recursion_depth" with
          | .error e => .error e
          | .ok mr =>
              .ok { maxAllocations := ma, maxDurationBits := md,
                    maxMemory := mm, gcInterval := gi,
                    maxRecursionDepth := mr }

/- The engine interface, monty_run.rs and run_progress.rs.  The monty
crate is the external collaborator: a compiled run is its code plus an
opaque compiled form, snapshots are opaque capture identifiers, and every
engine entry point is a field of an Engine record that theorems quantify
over. -/

/-- A compiled, not-yet-started program owned by a session (the engine's
MontyRun).  Its observable surface in the binding is the source code
accessor; execution behavior comes from the Engine record. -/
structure CompiledRun where
  code : String
  deriving DecidableEq

/-- The result a resume feeds back into the engine (the engine's
ExternalResult): a successful return value or an injected exception. -/
inductive ExternalResult where
  | ret (v : MontyObject)
  | error (exc : MontyException)

/-- A paused set of unresolved futures (the engine's FutureSnapshot): the
outstanding call identifiers and the opaque continuation capture. -/
structure FutureSnapshotE where
  pendingCallIds : List Nat
  sid : Nat

/-- One step of interruptible execution as the engine reports it (the
engine's RunProgress): an external call, an intercepted platform call, a
wait on futures, or completion.  Continuations are opaque capture ids. -/
inductive RunProgressE where
  | functionCall (functionName : String) (args : List MontyObject)
      (kwargs : List (MontyObject × MontyObject)) (callId : Nat) (state : Nat)
  | osCall (function : String) (args : List MontyObject)
      (kwargs : List (MontyObject × MontyObject)) (callId : Nat) (state : Nat)
  | resolveFutures (snapshot : FutureSnapshotE)
  | complete (obj : MontyObject)

/-- The external engine's entry points used by the binding, quantified
over by the theorems: starting an interruptible run, running to
completion, resuming a call snapshot, and resuming a future snapshot.
Each returns the engine's progress or result paired with the text printed
during the step, or an engine exception. -/
structure Engine where
  start : CompiledRun → List MontyObject → Tracker →
    Except MontyException (RunProgressE × String)
  runBlocking : CompiledRun → List MontyObject → Tracker →
    Except MontyException (MontyObject × String)
  resumeSnap : Nat → ExternalResult →
    Except MontyException (RunProgressE × String)
  resumeFutures : FutureSnapshotE → List (Nat × ExternalResult) →
    Except MontyException (RunProgressE × String)

/-- run_progress.rs FunctionCall: a paused external call with its one-shot
continuation cell (RefCell of Option of Snapshot). -/
structure FunctionCallR where
  functionName : String
  args : List MontyObject
  kwargs : List (MontyObject × MontyObject)
  callId : Nat
  output : String
  state : Option Nat

/-- run_progress.rs PendingFutures: paused unresolved futures with their
one-shot continuation cell. -/
structure PendingFuturesR where
  pendingCallIds : List Nat
  output : String
  state : Option FutureSnapshotE

/-- run_progress.rs Complete: a finished run holding its one-shot result
cell and the collected output. -/
structure CompleteR where
  result : Option MontyObject
  output : String

/-- run_progress.rs Progress: the unified result of start and resume. -/
inductive ProgressR where
  | functionCall (fc : FunctionCallR)
  | pendingFutures (pf : PendingFuturesR)
  | complete (c : CompleteR)

/-- run_progress.rs Progress::from_run_progress: wrap an engine progress,
attaching the collected output; an OsCall becomes a FunctionCall whose
name is the os-prefixed debug rendering of the intercepted function; a
ResolveFutures reads the pending ids out of its snapshot. -/
def fromRunProgress (p : RunProgressE) (output : String) :
    Except RbError ProgressR :=
  match p with
  | .functionCall functionName args kwargs callId state =>
      .ok (.functionCall
        ⟨functionName, args, kwargs, callId, output, some state⟩)
  | .osCall function args kwargs callId state =>
      .ok (.functionCall
        ⟨"os:" ++ function, args, kwargs, callId, output, some state⟩)
  | .resolveFutures snapshot =>
      .ok (.pendingFutures ⟨snapshot.pendingCallIds, output, some snapshot⟩)
  | .complete obj => .ok (.complete ⟨some obj, output⟩)

/-- monty_run.rs Run: the session object; the RefCell of Option cell that
the consuming start empties. -/
structure RunState where
  inner : Option CompiledRun

/-- monty_run.rs Run::code: the source accessor; raises ConsumedError on a
consumed session. -/
def Run.code (r : RunState) : Except RbError String :=
  match r.inner with
  | Option.none => .error consumed_error
  | some run => .ok run.code

/-- monty_run.rs Run::run: blocking execution with the no-limit tracker,
printing to stdout (printed text discarded here). -/
def Run.run (e : Engine) (r : RunState) (inputs : List RubyValue) :
    Except RbError RubyValue :=
  match r.inner with
  | Option.none => .error consumed_error
  | some run =>
    match ruby_array_to_monty_vec inputs with
    | .error err => .error err
    | .ok montyInputs =>
      match e.runBlocking run montyInputs Tracker.noLimit with
      | .error exc => .error (map_monty_exception exc)
      | .ok (result, _) => monty_to_ruby result

/-- monty_run.rs Run::run_with_limits: blocking execution under a limited
tracker built from the parsed limits hash; every engine failure is mapped
through map_monty_exception. -/
def Run.runWithLimits (e : Engine) (r : RunState) (inputs : List RubyValue)
    (limits : List (RubyValue × RubyValue)) : Except RbError RubyValue :=
  match r.inner with
  | Option.none => .error consumed_error
  | some run =>
    match ruby_array_to_monty_vec inputs with
    | .error err => .error err
    | .ok montyInputs =>
      match parse_limits_hash limits with
      | .error err => .error err
      | .ok resourceLimits =>
        match e.runBlocking run montyInputs (Tracker.limited resourceLimits) with
        | .error exc => .error (map_monty_exception exc)
        | .ok (result, _) => monty_to_ruby result

/-- monty_run.rs Run::run_capturing: blocking execution with the no-limit
tracker, returning a hash with the result and the captured output. -/
def Run.runCapturing (e : Engine) (r : RunState) (inputs : List RubyValue) :
    Except RbError RubyValue :=
  match r.inner with
  | Option.none => .error consumed_error
  | some run =>
    match ruby_array_to_monty_vec inputs with
    | .error err => .error err
    | .ok montyInputs =>
      match e.runBlocking run montyInputs Tracker.noLimit with
      | .error exc => .error (map_monty_exception exc)
      | .ok (result, out) =>
        match monty_to_ruby result with
        | .error err => .error err
        | .ok rubyResult =>
            .ok (.hash [(.sym "result", rubyResult),
                        (.sym "output", .str out false)])

/-- monty_run.rs Run::run_capturing_with_limits: as run_capturing but
under a limited tracker built from the parsed limits hash. -/
def Run.runCapturingWithLimits (e : Engine) (r : RunState)
    (inputs : List RubyValue) (limits : List (RubyValue × RubyValue)) :
    Except RbError RubyValue :=
  match r.inner with
  | Option.none => .error consumed_error
  | some run =>
    match ruby_array_to_monty_vec inputs with
    | .error err => .error err
    | .ok montyInputs =>
      match parse_limits_hash limits with
      | .error err => .error err
      | .ok resourceLimits =>
        match e.runBlocking run montyInputs (Tracker.limited resourceLimits) with
        | .error exc => .error (map_monty_exception exc)
        | .ok (result, out) =>
          match monty_to_ruby result with
          | .error err => .error err
          | .ok rubyResult =>
              .ok (.hash [(.sym "result", rubyResult),
                          (.sym "output", .str out false)])

/-- monty_run.rs Run::start: take the compiled run out of the cell (so the
session is consumed before anything else happens), convert the inputs,
start the engine under the no-limit tracker and wrap the first progress.
Returns the result together with the session's state afterwards. -/
def Run.start (e : Engine) (r : RunState) (inputs : List RubyValue) :
    Except RbError ProgressR × RunState :=
  match r.inner with
  | Option.none => (.error consumed_error, r)
  | some montyRun =>
    let r' : RunState := ⟨Option.none⟩
    match ruby_array_to_monty_vec inputs with
    | .error err => (.error err, r')
    | .ok montyInputs =>
      match e.start montyRun montyInputs Tracker.noLimit with
      | .error exc => (.error (map_monty_exception exc), r')
      | .ok (progress, out) => (fromRunProgress progress out, r')


/-- Modelled from the spec: the engine's MontyRun::dump (the monty crate
is not under src).  Serialization of the program text and compiled form
is exact and the byte format is opaque; it is modelled as an injective
encoding of the compiled run into a byte sequence. -/
def engineDump (c : CompiledRun) : List Nat :=
  c.code.data.map Char.toNat

/-- Modelled from the spec: the engine's MontyRun::load, the inverse
decoding of engineDump. -/
def engineLoad (bytes : List Nat) : Except String CompiledRun :=
  .ok ⟨String.mk (bytes.map Char.ofNat)⟩


/-- monty_run.rs Run::dump: serialize a Fresh session; a consumed session
raises ConsumedError, an engine serialization failure becomes a
RuntimeError. -/
def Run.dump (r : RunState) : Except RbError (List Nat) :=
  match r.inner with
  | Option.none => .error consumed_error
  | some run =>
    match engineDump run with
    | bytes => .ok bytes

/-- monty_run.rs Run::load: deserialize a session from bytes; an engine
failure becomes a RuntimeError. -/
def Run.load (bytes : List Nat) : Except RbError RunState :=
  match engineLoad bytes with
  | .error e => .error ⟨ErrKind.runtimeError, "deserialization error: " ++ e⟩
  | .ok montyRun => .ok ⟨some montyRun⟩

/- Suspension resume operations, run_progress.rs.  Each resume first takes
the continuation snapshot out of its cell (raising ConsumedError when the
cell is already empty), and only then validates and converts its argument;
the state after the operation is returned alongside the result. -/

/-- run_progress.rs FunctionCall::resume: take the snapshot, convert the
Ruby return value, and re-enter the engine with it as a successful
external result. -/
def FunctionCallR.resume (fc : FunctionCallR) (e : Engine)
    (result : RubyValue) : Except RbError ProgressR × FunctionCallR :=
  match fc.state with
  | Option.none => (.error consumed_error, fc)
  | some snapshot =>
    let fc' := { fc with state := Option.none }
    match ruby_to_monty result with
    | .error err => (.error err, fc')
    | .ok montyResult =>
      match e.resumeSnap snapshot (.ret montyResult) with
      | .error exc => (.error (map_monty_exception exc), fc')
      | .ok (progress, out) => (fromRunProgress progress out, fc')

/-- run_progress.rs FunctionCall::resume_with_error: take the snapshot and
re-enter the engine with an injected RuntimeError exception carrying the
given message. -/
def FunctionCallR.resumeWithError (fc : FunctionCallR) (e : Engine)
    (message : String) : Except RbError ProgressR × FunctionCallR :=
  match fc.state with
  | Option.none => (.error consumed_error, fc)
  | some snapshot =>
    let fc' := { fc with state := Option.none }
    let exc : MontyException := ⟨ExcType.runtimeError, some message⟩
    match e.resumeSnap snapshot (.error exc) with
    | .error exc2 => (.error (map_monty_exception exc2), fc')
    | .ok (progress, out) => (fromRunProgress progress out, fc')

/-- One batch entry's id-and-value step: the call id must be an Integer in
u32 range (RangeError outside it, TypeError otherwise) and the value is
converted; the resolution built is always a successful Return. -/
def processEntryIdVal (idVal v : RubyValue) :
    Except RbError (Nat × ExternalResult) :=
  match idVal with
  | .int i =>
      if 0 ≤ i ∧ i < 2 ^ 32 then
        match ruby_to_monty v with
        | .error err => .error err
        | .ok montyValue => .ok (i.toNat, .ret montyValue)
      else .error ⟨ErrKind.rangeError, "integer out of range for u32"⟩
  | _ => .error ⟨ErrKind.typeError, "no implicit conversion into Integer"⟩

/-- Destructure one two-element batch entry into its id and value step. -/
def processPairList : List RubyValue → Except RbError (Nat × ExternalResult)
  | [idVal, v] => processEntryIdVal idVal v
  | _ => .error (monty_error "each result must be a [call_id, value] pair")

/-- The batch walk of PendingFutures::resume: each entry must be a
two-element array of a call id in u32 range and a value; every resolution
it builds is a successful Return of the converted value. -/
def processResults : List RubyValue →
    Except RbError (List (Nat × ExternalResult))
  | [] => .ok []
  | entry :: rest =>
    match entry with
    | .array pair _ =>
      if pair.length ≠ 2 then
        .error (monty_error "each result must be a [call_id, value] pair")
      else
        match processPairList pair with
        | .error err => .error err
        | .ok resolution =>
          match processResults rest with
          | .error err => .error err
          | .ok resolved => .ok (resolution :: resolved)
    | _ => .error ⟨ErrKind.typeError, "no implicit conversion into Array"⟩

/-- run_progress.rs PendingFutures::resume: take the snapshot, walk the
batch into resolutions, and re-enter the engine with them. -/
def PendingFuturesR.resume (pf : PendingFuturesR) (e : Engine)
    (results : List RubyValue) : Except RbError ProgressR × PendingFuturesR :=
  match pf.state with
  | Option.none => (.error consumed_error, pf)
  | some snapshot =>
    let pf' := { pf with state := Option.none }
    match processResults results with
    | .error err => (.error err, pf')
    | .ok resolved =>
      match e.resumeFutures snapshot resolved with
      | .error exc => (.error (map_monty_exception exc), pf')
      | .ok (progress, out) => (fromRunProgress progress out, pf')

/-- run_progress.rs Complete::value: take the result out of its one-shot
cell and convert it; a second access raises ConsumedError. -/
def CompleteR.value (c : CompleteR) : Except RbError RubyValue × CompleteR :=
  match c.result with
  | Option.none => (.error consumed_error, c)
  | some obj => (monty_to_ruby obj, { c with result := Option.none })

mutual

/-- The host values the bridge round-trips exactly: nil, booleans,
integers, floats, text strings, unfrozen arrays and hashes of such values.
Symbols and binary strings convert but come back as text strings, frozen
arrays come back unfrozen, and other objects raise. -/
def hostSupported : RubyValue → Bool
  | .nil => true
  | .bool _ => true
  | .int _ => true
  | .float _ => true
  | .str _ binary => !binary
  | .sym _ => false
  | .array items frozen => !frozen && hostSupportedList items
  | .hash pairs => hostSupportedPairs pairs
  | .other _ => false

/-- hostSupported over a list of values. -/
def hostSupportedList : List RubyValue → Bool
  | [] => true
  | v :: rest => hostSupported v && hostSupportedList rest

/-- hostSupported over hash pairs. -/
def hostSupportedPairs : List (RubyValue × RubyValue) → Bool
  | [] => true
  | (k, v) :: rest => hostSupported k && hostSupported v && hostSupportedPairs rest

end

mutual

/-- The Values the bridge round-trips structurally: None, Bool, in-range
Int, out-of-range BigInt, Float, String, and Lists and Dicts of such
Values.  (Int always stays in i64 range in the Rust binding, and BigInt is
only produced on i64 overflow; the conditions state those representation
invariants.) -/
def goodValue : MontyObject → Bool
  | .none => true
  | .bool _ => true
  | .int i => decide (i64Min ≤ i ∧ i ≤ i64Max)
  | .bigInt b => decide (b < i64Min ∨ i64Max < b)
  | .float _ => true
  | .string _ => true
  | .list items => goodValueList items
  | .dict pairs => goodValuePairs pairs
  | _ => false

/-- goodValue over a list of Values. -/
def goodValueList : List MontyObject → Bool
  | [] => true
  | v :: rest => goodValue v && goodValueList rest

/-- goodValue over dict pairs. -/
def goodValuePairs : List (MontyObject × MontyObject) → Bool
  | [] => true
  | (k, v) :: rest => goodValue k && goodValue v && goodValuePairs rest

end

/-- A trivial concrete engine whose every entry point completes at once,
used to instantiate the quantified theorems on concrete inputs. -/
def sampleEngine : Engine where
  start := fun _ _ _ => .ok (.complete .none, "")
  runBlocking := fun _ _ _ => .ok (.none, "")
  resumeSnap := fun _ _ => .ok (.complete .none, "")
  resumeFutures := fun _ _ => .ok (.complete .none, "")

/-- A concrete engine that completes under the no-limit tracker but fails
under any limited tracker; its no-limit column agrees with sampleEngine. -/
def limitedProbeEngine : Engine where
  start := fun _ _ t =>
    match t with
    | .noLimit => .ok (.complete .none, "")
    | .limited _ => .error ⟨ExcType.runtimeError, some "limited"⟩
  runBlocking := fun _ _ _ => .ok (.none, "")
  resumeSnap := fun _ _ => .ok (.complete .none, "")
  resumeFutures := fun _ _ => .ok (.complete .none, "")

/-- A concrete engine whose blocking run reports an allocation breach the
way the engine does: as an engine exception carried to the binding. -/
def breachEngine : Engine where
  start := fun _ _ _ => .ok (.complete .none, "")
  runBlocking := fun _ _ _ =>
    .error ⟨ExcType.other "ResourceError",
      some "allocation limit exceeded: 2 allocations (limit: 1)"⟩
  resumeSnap := fun _ _ => .ok (.complete .none, "")
  resumeFutures := fun _ _ => .ok (.complete .none, "")

/-- Round trip of Char through its code point, used by the serializer
model below. -/
theorem char_ofNat_toNat (c : Char) : Char.ofNat c.toNat = c := by
  have h : Nat.isValidChar c.toNat := c.valid
  have hd : Char.ofNat c.toNat = Char.ofNatAux c.toNat h := dif_pos h
  rw [hd]
  cases c with
  | mk val valid =>
    apply Char.ext
    simp [Char.ofNatAux]
    apply UInt32.eq_of_toBitVec_eq
    apply BitVec.eq_of_toNat_eq
    simp [BitVec.toNat_ofNatLt]
    rfl

/-- The serializer round trip the spec promises of the engine pair. -/
theorem engineLoad_engineDump (c : CompiledRun) :
    engineLoad (engineDump c) = .ok c := by
  have hmap : ∀ l : List Char, (l.map Char.toNat).map Char.ofNat = l := by
    intro l
    induction l with
    | nil => rfl
    | cons ch rest ih => simp [char_ofNat_toNat, ih]
  cases c with
  | mk code =>
    cases code with
    | mk data => simp [engineDump, engineLoad, hmap]

/- Decimal round-trip lemmas: rendering an integer and parsing it back is
the identity, i.e. the big-integer detour through a decimal string loses
no precision. -/

/-- Reading back the little-endian digits of n recovers n. -/
theorem ofDecDigitsLE_natDecDigitsF :
    ∀ fuel n, n ≤ fuel → ofDecDigitsLE (natDecDigitsF fuel n) = n := by
  intro fuel
  induction fuel with
  | zero =>
      intro n hn
      have : n = 0 := Nat.le_zero.mp hn
      simp [natDecDigitsF, ofDecDigitsLE, this]
  | succ f ih =>
      intro n hn
      by_cases h0 : n = 0
      · simp [natDecDigitsF, ofDecDigitsLE, h0]
      · have hdiv : n / 10 ≤ f := by
          have hlt : n / 10 < n :=
            Nat.div_lt_self (Nat.pos_of_ne_zero h0) (by norm_num)
          omega
        simp [natDecDigitsF, h0, ofDecDigitsLE, ih (n / 10) hdiv,
          Nat.mod_add_div n 10]

/-- Every digit the renderer produces is below ten. -/
theorem natDecDigitsF_lt_ten :
    ∀ fuel n d, d ∈ natDecDigitsF fuel n → d < 10 := by
  intro fuel
  induction fuel with
  | zero => intro n d hd; simp [natDecDigitsF] at hd
  | succ f ih =>
      intro n d hd
      by_cases h0 : n = 0
      · simp [natDecDigitsF, h0] at hd
      · simp only [natDecDigitsF, h0, if_neg, ite_false] at hd
        rcases List.mem_cons.mp hd with h | h
        · subst h; exact Nat.mod_lt n (by omega)
        · exact ih (n / 10) d h

/-- A nonzero number renders to at least one digit. -/
theorem natDecDigitsF_ne_nil (fuel n : Nat) (h0 : n ≠ 0) (hf : 1 ≤ fuel) :
    natDecDigitsF fuel n ≠ [] := by
  cases fuel with
  | zero => omega
  | succ f => simp [natDecDigitsF, h0]

/-- Digit characters decode back to their digit. -/
theorem charDigitVal_digitChar (d : Nat) (hd : d < 10) :
    charDigitVal (digitChar d) = d := by
  interval_cases d <;> rfl

/-- Digit characters satisfy the digit test. -/
theorem isDecDigit_digitChar (d : Nat) (hd : d < 10) :
    isDecDigit (digitChar d) = true := by
  interval_cases d <;> rfl

/-- Digit characters are not the minus sign. -/
theorem digitChar_ne_minus (d : Nat) (hd : d < 10) : digitChar d ≠ '-' := by
  interval_cases d <;> decide

/-- Digit characters are not the plus sign. -/
theorem digitChar_ne_plus (d : Nat) (hd : d < 10) : digitChar d ≠ '+' := by
  interval_cases d <;> decide

/-- The rendering of a natural number is never the empty string. -/
theorem natToDec_ne_nil (n : Nat) : (natToDec n).data ≠ [] := by
  by_cases h0 : n = 0
  · simp [natToDec, h0]
  · simp only [natToDec, h0, if_neg, ite_false]
    intro hcontra
    have := natDecDigitsF_ne_nil n n h0 (by omega)
    simp [natDecDigits] at hcontra
    exact this hcontra

/-- The rendering of a natural number is all digits. -/
theorem natToDec_all_digits (n : Nat) :
    (natToDec n).data.all isDecDigit = true := by
  by_cases h0 : n = 0
  · simp [natToDec, h0]; decide
  · simp only [natToDec, h0, if_neg, ite_false]
    rw [List.all_eq_true]
    intro c hc
    rw [List.mem_reverse, List.mem_map] at hc
    obtain ⟨d, hdmem, hdc⟩ := hc
    subst hdc
    exact isDecDigit_digitChar d (natDecDigitsF_lt_ten n n d hdmem)

/-- Parsing the rendering of a natural number recovers it. -/
theorem decToNat_natToDec (n : Nat) : decToNat (natToDec n).data = some n := by
  by_cases h0 : n = 0
  · subst h0; decide
  · rw [decToNat, if_pos ⟨natToDec_ne_nil n, natToDec_all_digits n⟩]
    simp only [natToDec, h0, if_neg, ite_false]
    rw [List.reverse_reverse, List.map_map]
    have hmap : (natDecDigits n).map (charDigitVal ∘ digitChar) =
        (natDecDigits n).map id := by
      apply List.map_congr_left
      intro d hd
      exact charDigitVal_digitChar d (natDecDigitsF_lt_ten n n d hd)
    rw [hmap, List.map_id]
    exact congrArg some (ofDecDigitsLE_natDecDigitsF n n (Nat.le_refl n))

/-- Parsing a nonempty all-digit string as an integer agrees with the
natural-number parse. -/
theorem decToInt_of_digits (s : String) (n : Nat)
    (h1 : s.data ≠ []) (h2 : s.data.all isDecDigit = true)
    (h3 : decToNat s.data = some n) : decToInt s = some (n : Int) := by
  obtain ⟨c, rest, hcr⟩ : ∃ c rest, s.data = c :: rest := by
    cases hd : s.data with
    | nil => exact absurd hd h1
    | cons c rest => exact ⟨c, rest, rfl⟩
  have hc : isDecDigit c = true := by
    rw [hcr, List.all_cons, Bool.and_eq_true] at h2
    exact h2.1
  have hcm : c ≠ '-' := by
    intro hEq; subst hEq; exact absurd hc (by decide)
  have hcp : c ≠ '+' := by
    intro hEq; subst hEq; exact absurd hc (by decide)
  simp only [decToInt, hcr]
  rw [if_neg hcm, if_neg hcp, ← hcr, h3]

/-- Round trip: rendering any integer and parsing it back is the identity
(the decimal-string detour loses no precision). -/
theorem decToInt_intToDec (i : Int) : decToInt (intToDec i) = some i := by
  by_cases hneg : i < 0
  · have hdata : (intToDec i).data = '-' :: (natToDec i.natAbs).data := by
      simp [intToDec, hneg, String.data_append]
    simp [decToInt, hdata, decToNat_natToDec]
    rw [abs_of_neg hneg]
    exact neg_neg i
  · have hi : intToDec i = natToDec i.natAbs := by simp [intToDec, hneg]
    have hparse := decToInt_of_digits (natToDec i.natAbs) i.natAbs
      (natToDec_ne_nil _) (natToDec_all_digits _) (decToNat_natToDec _)
    rw [hi, hparse]
    have hcast : ((i.natAbs : Nat) : Int) = i := by omega
    rw [hcast]

/-- The integer arm of ruby_to_monty in closed form: the i64 fast path,
else the lossless big-integer fallback. -/
theorem ruby_to_monty_int_eq (i : Int) :
    ruby_to_monty (.int i) =
      if i64Min ≤ i ∧ i ≤ i64Max then .ok (.int i) else .ok (.bigInt i) := by
  by_cases h : i64Min ≤ i ∧ i ≤ i64Max
  · simp [ruby_to_monty, h]
  · simp [ruby_to_monty, h, decToInt_intToDec]

/- Error classification: which Ruby exception kinds each conversion can
produce.  In particular none of them ever produces a Monty::ResourceError
or a Monty::ConsumedError. -/

mutual

/-- Errors of ruby_to_monty are TypeErrors or ArgumentErrors. -/
theorem ruby_to_monty_error_kinds (v : RubyValue) (err : RbError)
    (h : ruby_to_monty v = .error err) :
    err.kind = ErrKind.typeError ∨ err.kind = ErrKind.argError := by
  match v with
  | .nil => simp [ruby_to_monty] at h
  | .bool b => simp [ruby_to_monty] at h
  | .int i =>
      rw [ruby_to_monty_int_eq] at h
      split at h <;> simp_all
  | .float bits => simp [ruby_to_monty] at h
  | .str s b => simp [ruby_to_monty] at h
  | .sym s => simp [ruby_to_monty] at h
  | .array items f =>
      cases hm : rubyListToMonty items with
      | ok ms => simp [ruby_to_monty, hm] at h
      | error e =>
          simp [ruby_to_monty, hm] at h
          exact h ▸ rubyListToMonty_error_kinds items e hm
  | .hash pairs =>
      cases hm : rubyPairsToMonty pairs with
      | ok ms => simp [ruby_to_monty, hm] at h
      | error e =>
          simp [ruby_to_monty, hm] at h
          exact h ▸ rubyPairsToMonty_error_kinds pairs e hm
  | .other className =>
      cases hdb : detect_bool (.other className) with
      | some b => simp [ruby_to_monty, hdb] at h
      | none =>
          simp [ruby_to_monty, hdb] at h
          left
          rw [← h]

/-- Errors of the list conversion are TypeErrors or ArgumentErrors. -/
theorem rubyListToMonty_error_kinds (items : List RubyValue) (err : RbError)
    (h : rubyListToMonty items = .error err) :
    err.kind = ErrKind.typeError ∨ err.kind = ErrKind.argError := by
  match items with
  | [] => simp [rubyListToMonty] at h
  | v :: rest =>
      cases hv : ruby_to_monty v with
      | error e =>
          simp [rubyListToMonty, hv] at h
          exact h ▸ ruby_to_monty_error_kinds v e hv
      | ok m =>
          cases hr : rubyListToMonty rest with
          | error e =>
              simp [rubyListToMonty, hv, hr] at h
              exact h ▸ rubyListToMonty_error_kinds rest e hr
          | ok ms => simp [rubyListToMonty, hv, hr] at h

/-- Errors of the pair conversion are TypeErrors or ArgumentErrors. -/
theorem rubyPairsToMonty_error_kinds (pairs : List (RubyValue × RubyValue))
    (err : RbError) (h : rubyPairsToMonty pairs = .error err) :
    err.kind = ErrKind.typeError ∨ err.kind = ErrKind.argError := by
  match pairs with
  | [] => simp [rubyPairsToMonty] at h
  | (k, v) :: rest =>
      cases hk : ruby_to_monty k with
      | error e =>
          simp [rubyPairsToMonty, hk] at h
          exact h ▸ ruby_to_monty_error_kinds k e hk
      | ok mk1 =>
          cases hv : ruby_to_monty v with
          | error e =>
              simp [rubyPairsToMonty, hk, hv] at h
              exact h ▸ ruby_to_monty_error_kinds v e hv
          | ok mv =>
              cases hr : rubyPairsToMonty rest with
              | error e =>
                  simp [rubyPairsToMonty, hk, hv, hr] at h
                  exact h ▸ rubyPairsToMonty_error_kinds rest e hr
              | ok ms => simp [rubyPairsToMonty, hk, hv, hr] at h

end

mutual

/-- Every error monty_to_ruby raises is the generic Monty::Error (the
Exception arm). -/
theorem monty_to_ruby_error_kind (v : MontyObject) (err : RbError)
    (h : monty_to_ruby v = .error err) : err.kind = ErrKind.montyError := by
  match v with
  | .none => simp [monty_to_ruby] at h
  | .bool b => simp [monty_to_ruby] at h
  | .int i => simp [monty_to_ruby] at h
  | .bigInt bi => simp [monty_to_ruby] at h
  | .float bits => simp [monty_to_ruby] at h
  | .string s => simp [monty_to_ruby] at h
  | .bytes s => simp [monty_to_ruby] at h
  | .list items =>
      cases hm : montyListToRuby items with
      | ok rs => simp [monty_to_ruby, hm] at h
      | error e =>
          simp [monty_to_ruby, hm] at h
          exact h ▸ montyListToRuby_error_kind items e hm
  | .tuple items =>
      cases hm : montyListToRuby items with
      | ok rs => simp [monty_to_ruby, hm] at h
      | error e =>
          simp [monty_to_ruby, hm] at h
          exact h ▸ montyListToRuby_error_kind items e hm
  | .namedTuple fieldNames values =>
      cases hm : namedTupleToRuby fieldNames values with
      | ok rs => simp [monty_to_ruby, hm] at h
      | error e =>
          simp [monty_to_ruby, hm] at h
          exact h ▸ namedTupleToRuby_error_kind fieldNames values e hm
  | .dict pairs =>
      cases hm : montyPairsToRuby pairs with
      | ok rs => simp [monty_to_ruby, hm] at h
      | error e =>
          simp [monty_to_ruby, hm] at h
          exact h ▸ montyPairsToRuby_error_kind pairs e hm
  | .set items =>
      cases hm : montyListToRuby items with
      | ok rs => simp [monty_to_ruby, hm] at h
      | error e =>
          simp [monty_to_ruby, hm] at h
          exact h ▸ montyListToRuby_error_kind items e hm
  | .frozenSet items =>
      cases hm : montyListToRuby items with
      | ok rs => simp [monty_to_ruby, hm] at h
      | error e =>
          simp [monty_to_ruby, hm] at h
          exact h ▸ montyListToRuby_error_kind items e hm
  | .dataclass attrs =>
      cases hm : montyPairsToRuby attrs with
      | ok rs => simp [monty_to_ruby, hm] at h
      | error e =>
          simp [monty_to_ruby, hm] at h
          exact h ▸ montyPairsToRuby_error_kind attrs e hm
  | .ellipsis => simp [monty_to_ruby] at h
  | .type d => simp [monty_to_ruby] at h
  | .builtinFunction d => simp [monty_to_ruby] at h
  | .path s => simp [monty_to_ruby] at h
  | .reprVal s => simp [monty_to_ruby] at h
  | .cycle id rendered => simp [monty_to_ruby] at h
  | .exception excType arg =>
      simp [monty_to_ruby] at h
      rw [← h]
      rfl

/-- Errors of the list back-conversion are generic Monty::Errors. -/
theorem montyListToRuby_error_kind (items : List MontyObject) (err : RbError)
    (h : montyListToRuby items = .error err) :
    err.kind = ErrKind.montyError := by
  match items with
  | [] => simp [montyListToRuby] at h
  | v :: rest =>
      cases hv : monty_to_ruby v with
      | error e =>
          simp [montyListToRuby, hv] at h
          exact h ▸ monty_to_ruby_error_kind v e hv
      | ok r =>
          cases hr : montyListToRuby rest with
          | error e =>
              simp [montyListToRuby, hv, hr] at h
              exact h ▸ montyListToRuby_error_kind rest e hr
          | ok rs => simp [montyListToRuby, hv, hr] at h

/-- Errors of the pair back-conversion are generic Monty::Errors. -/
theorem montyPairsToRuby_error_kind (pairs : List (MontyObject × MontyObject))
    (err : RbError) (h : montyPairsToRuby pairs = .error err) :
    err.kind = ErrKind.montyError := by
  match pairs with
  | [] => simp [montyPairsToRuby] at h
  | (k, v) :: rest =>
      cases hk : monty_to_ruby k with
      | error e =>
          simp [montyPairsToRuby, hk] at h
          exact h ▸ monty_to_ruby_error_kind k e hk
      | ok rk =>
          cases hv : monty_to_ruby v with
          | error e =>
              simp [montyPairsToRuby, hk, hv] at h
              exact h ▸ monty_to_ruby_error_kind v e hv
          | ok rv =>
              cases hr : montyPairsToRuby rest with
              | error e =>
                  simp [montyPairsToRuby, hk, hv, hr] at h
                  exact h ▸ montyPairsToRuby_error_kind rest e hr
              | ok rs => simp [montyPairsToRuby, hk, hv, hr] at h

/-- Errors of the named-tuple conversion are generic Monty::Errors. -/
theorem namedTupleToRuby_error_kind (names : List String)
    (values : List MontyObject) (err : RbError)
    (h : namedTupleToRuby names values = .error err) :
    err.kind = ErrKind.montyError := by
  match names, values with
  | [], _ => simp [namedTupleToRuby] at h
  | _ :: _, [] => simp [namedTupleToRuby] at h
  | name :: ns, v :: vs =>
      cases hv : monty_to_ruby v with
      | error e =>
          simp [namedTupleToRuby, hv] at h
          exact h ▸ monty_to_ruby_error_kind v e hv
      | ok rv =>
          cases hr : namedTupleToRuby ns vs with
          | error e =>
              simp [namedTupleToRuby, hv, hr] at h
              exact h ▸ namedTupleToRuby_error_kind ns vs e hr
          | ok rs => simp [namedTupleToRuby, hv, hr] at h

end

/-- map_monty_exception only ever yields Monty::SyntaxError or the generic
Monty::Error. -/
theorem map_monty_exception_kinds (exc : MontyException) :
    (map_monty_exception exc).kind = ErrKind.syntaxError ∨
    (map_monty_exception exc).kind = ErrKind.montyError := by
  by_cases h : exc.excType = ExcType.syntaxError
  · left; simp [map_monty_exception, h, syntax_error]
  · right; simp [map_monty_exception, h, monty_error]

/-- Errors of the limits-hash parser are RangeErrors or TypeErrors. -/
theorem parse_limits_hash_error_kinds (opts : List (RubyValue × RubyValue))
    (err : RbError) (h : parse_limits_hash opts = .error err) :
    err.kind = ErrKind.rangeError ∨ err.kind = ErrKind.typeError := by
  have husize : ∀ key e, get_optional_usize opts key = .error e →
      e.kind = ErrKind.rangeError ∨ e.kind = ErrKind.typeError := by
    intro key e he
    rw [get_optional_usize] at he
    split at he
    · simp at he
    · split at he
      · simp at he
      · simp at he
        subst he
        left
        rfl
    · simp at he
      subst he
      right
      rfl
  have hf64 : ∀ key e, get_optional_f64 opts key = .error e →
      e.kind = ErrKind.rangeError ∨ e.kind = ErrKind.typeError := by
    intro key e he
    rw [get_optional_f64] at he
    split at he
    · simp at he
    · simp at he
    · simp at he
      subst he
      right
      rfl
  rw [parse_limits_hash] at h
  split at h
  · simp at h; exact h ▸ husize _ _ (by assumption)
  · split at h
    · simp at h; exact h ▸ hf64 _ _ (by assumption)
    · split at h
      · simp at h; exact h ▸ husize _ _ (by assumption)
      · split at h
        · simp at h; exact h ▸ husize _ _ (by assumption)
        · split at h
          · simp at h; exact h ▸ husize _ _ (by assumption)
          · simp at h


/-- Wrapping an engine progress never fails. -/
theorem fromRunProgress_ok (p : RunProgressE) (output : String) :
    ∃ pr, fromRunProgress p output = .ok pr := by
  cases p <;> exact ⟨_, rfl⟩

/-- A successful id-and-value step always builds a Return resolution. -/
theorem processEntryIdVal_ret (idVal v : RubyValue)
    (x : Nat × ExternalResult) (h : processEntryIdVal idVal v = .ok x) :
    ∃ mv, x.2 = ExternalResult.ret mv := by
  cases idVal with
  | int i =>
      rw [processEntryIdVal] at h
      by_cases hrange : 0 ≤ i ∧ i < 2 ^ 32
      · rw [if_pos hrange] at h
        cases hv : ruby_to_monty v with
        | error e => rw [hv] at h; simp at h
        | ok mv =>
            rw [hv] at h
            simp at h
            rw [← h]
            exact ⟨mv, rfl⟩
      · rw [if_neg hrange] at h; simp at h
  | nil => simp [processEntryIdVal] at h
  | bool b => simp [processEntryIdVal] at h
  | float bits => simp [processEntryIdVal] at h
  | str s bn => simp [processEntryIdVal] at h
  | sym s => simp [processEntryIdVal] at h
  | array items fz => simp [processEntryIdVal] at h
  | hash prs => simp [processEntryIdVal] at h
  | other c => simp [processEntryIdVal] at h

/-- Errors of the id-and-value step are never Monty::ResourceErrors. -/
theorem processEntryIdVal_error_kind (idVal v : RubyValue) (err : RbError)
    (h : processEntryIdVal idVal v = .error err) :
    err.kind ≠ ErrKind.resourceError := by
  cases idVal with
  | int i =>
      rw [processEntryIdVal] at h
      by_cases hrange : 0 ≤ i ∧ i < 2 ^ 32
      · rw [if_pos hrange] at h
        cases hv : ruby_to_monty v with
        | error e =>
            rw [hv] at h
            simp at h
            rcases ruby_to_monty_error_kinds v e hv with h1 | h1 <;>
              (rw [← h]; simp [h1])
        | ok mv => rw [hv] at h; simp at h
      · rw [if_neg hrange] at h
        simp at h
        rw [← h]
        simp
  | nil => simp [processEntryIdVal] at h; rw [← h]; simp
  | bool b => simp [processEntryIdVal] at h; rw [← h]; simp
  | float bits => simp [processEntryIdVal] at h; rw [← h]; simp
  | str s bn => simp [processEntryIdVal] at h; rw [← h]; simp
  | sym s => simp [processEntryIdVal] at h; rw [← h]; simp
  | array items fz => simp [processEntryIdVal] at h; rw [← h]; simp
  | hash prs => simp [processEntryIdVal] at h; rw [← h]; simp
  | other c => simp [processEntryIdVal] at h; rw [← h]; simp

/-- A successful pair step always builds a Return resolution. -/
theorem processPairList_ret (pair : List RubyValue)
    (x : Nat × ExternalResult) (h : processPairList pair = .ok x) :
    ∃ mv, x.2 = ExternalResult.ret mv := by
  match pair, h with
  | [idVal, v], h => exact processEntryIdVal_ret idVal v x h

/-- Errors of the pair step are never Monty::ResourceErrors. -/
theorem processPairList_error_kind (pair : List RubyValue) (err : RbError)
    (h : processPairList pair = .error err) :
    err.kind ≠ ErrKind.resourceError := by
  match pair, h with
  | [idVal, v], h => exact processEntryIdVal_error_kind idVal v err h
  | [], h => simp [processPairList] at h; rw [← h]; simp [monty_error]
  | [a], h => simp [processPairList] at h; rw [← h]; simp [monty_error]
  | a :: b :: c :: rest, h =>
      simp [processPairList] at h; rw [← h]; simp [monty_error]

/-- Every resolution the batch walk builds is a successful Return: the
binding offers no way to deliver an error resolution for a future. -/
theorem processResults_all_ret :
    ∀ (batch : List RubyValue) (rs : List (Nat × ExternalResult)),
      processResults batch = .ok rs →
      ∀ x ∈ rs, ∃ v, x.2 = ExternalResult.ret v := by
  intro batch
  induction batch with
  | nil =>
      intro rs h x hx
      simp [processResults] at h
      subst h
      simp at hx
  | cons entry rest ih =>
      intro rs h x hx
      cases entry with
      | array pair fz =>
          rw [processResults] at h
          by_cases hlen : pair.length ≠ 2
          · rw [if_pos hlen] at h; simp at h
          · rw [if_neg hlen] at h
            cases hp : processPairList pair with
            | error e => rw [hp] at h; simp at h
            | ok resolution =>
                rw [hp] at h
                cases hr : processResults rest with
                | error e => rw [hr] at h; simp at h
                | ok resolved =>
                    rw [hr] at h
                    simp at h
                    subst h
                    rcases List.mem_cons.mp hx with hx1 | hx2
                    · subst hx1
                      exact processPairList_ret pair x hp
                    · exact ih resolved hr x hx2
      | nil => simp [processResults] at h
      | bool b => simp [processResults] at h
      | int i => simp [processResults] at h
      | float bits => simp [processResults] at h
      | str s bn => simp [processResults] at h
      | sym s => simp [processResults] at h
      | hash prs => simp [processResults] at h
      | other c => simp [processResults] at h

/-- Errors of the batch walk are never Monty::ResourceErrors. -/
theorem processResults_no_resource_error :
    ∀ (batch : List RubyValue) (err : RbError),
      processResults batch = .error err →
      err.kind ≠ ErrKind.resourceError := by
  intro batch
  induction batch with
  | nil => intro err h; simp [processResults] at h
  | cons entry rest ih =>
      intro err h
      cases entry with
      | array pair fz =>
          rw [processResults] at h
          by_cases hlen : pair.length ≠ 2
          · rw [if_pos hlen] at h
            simp at h
            rw [← h]
            simp [monty_error]
          · rw [if_neg hlen] at h
            cases hp : processPairList pair with
            | error e =>
                rw [hp] at h
                simp at h
                exact h ▸ processPairList_error_kind pair e hp
            | ok resolution =>
                rw [hp] at h
                cases hr : processResults rest with
                | error e =>
                    rw [hr] at h
                    simp at h
                    exact h ▸ ih e hr
                | ok resolved => rw [hr] at h; simp at h
      | nil => simp [processResults] at h; rw [← h]; simp
      | bool b => simp [processResults] at h; rw [← h]; simp
      | int i => simp [processResults] at h; rw [← h]; simp
      | float bits => simp [processResults] at h; rw [← h]; simp
      | str s bn => simp [processResults] at h; rw [← h]; simp
      | sym s => simp [processResults] at h; rw [← h]; simp
      | hash prs => simp [processResults] at h; rw [← h]; simp
      | other c => simp [processResults] at h; rw [← h]; simp

/-- No error surfaced by Run::start is a Monty::ResourceError. -/
theorem run_start_no_resource_error (e : Engine) (r : RunState)
    (inputs : List RubyValue) (err : RbError)
    (h : (Run.start e r inputs).1 = .error err) :
    err.kind ≠ ErrKind.resourceError := by
  cases r with
  | mk inner =>
    cases inner with
    | none =>
        simp [Run.start] at h
        rw [← h]
        simp [consumed_error]
    | some montyRun =>
        cases hc : ruby_array_to_monty_vec inputs with
        | error e2 =>
            simp [Run.start, hc] at h
            have hc2 : rubyListToMonty inputs = .error e2 := by
              simpa [ruby_array_to_monty_vec] using hc
            rcases rubyListToMonty_error_kinds inputs e2 hc2 with h1 | h1 <;>
              (rw [← h]; simp [h1])
        | ok mi =>
            cases hs : e.start montyRun mi Tracker.noLimit with
            | error exc =>
                simp [Run.start, hc, hs] at h
                rcases map_monty_exception_kinds exc with h1 | h1 <;>
                  (rw [← h]; simp [h1])
            | ok po =>
                obtain ⟨progress, out⟩ := po
                obtain ⟨pr, hpr⟩ := fromRunProgress_ok progress out
                simp [Run.start, hc, hs, hpr] at h

/-- No error surfaced by FunctionCall::resume is a Monty::ResourceError. -/
theorem functionCall_resume_no_resource_error (fc : FunctionCallR)
    (e : Engine) (v : RubyValue) (err : RbError)
    (h : (FunctionCallR.resume fc e v).1 = .error err) :
    err.kind ≠ ErrKind.resourceError := by
  cases hst : fc.state with
  | none =>
      simp [FunctionCallR.resume, hst] at h
      rw [← h]
      simp [consumed_error]
  | some snapshot =>
      cases hc : ruby_to_monty v with
      | error e2 =>
          simp [FunctionCallR.resume, hst, hc] at h
          rcases ruby_to_monty_error_kinds v e2 hc with h1 | h1 <;>
            (rw [← h]; simp [h1])
      | ok mv =>
          cases hs : e.resumeSnap snapshot (.ret mv) with
          | error exc =>
              simp [FunctionCallR.resume, hst, hc, hs] at h
              rcases map_monty_exception_kinds exc with h1 | h1 <;>
                (rw [← h]; simp [h1])
          | ok po =>
              obtain ⟨progress, out⟩ := po
              obtain ⟨pr, hpr⟩ := fromRunProgress_ok progress out
              simp [FunctionCallR.resume, hst, hc, hs, hpr] at h

/-- No error surfaced by FunctionCall::resume_with_error is a
Monty::ResourceError. -/
theorem functionCall_resumeWithError_no_resource_error (fc : FunctionCallR)
    (e : Engine) (message : String) (err : RbError)
    (h : (FunctionCallR.resumeWithError fc e message).1 = .error err) :
    err.kind ≠ ErrKind.resourceError := by
  cases hst : fc.state with
  | none =>
      simp [FunctionCallR.resumeWithError, hst] at h
      rw [← h]
      simp [consumed_error]
  | some snapshot =>
      cases hs : e.resumeSnap snapshot
          (.error ⟨ExcType.runtimeError, some message⟩) with
      | error exc =>
          simp [FunctionCallR.resumeWithError, hst, hs] at h
          rcases map_monty_exception_kinds exc with h1 | h1 <;>
            (rw [← h]; simp [h1])
      | ok po =>
          obtain ⟨progress, out⟩ := po
          obtain ⟨pr, hpr⟩ := fromRunProgress_ok progress out
          simp [FunctionCallR.resumeWithError, hst, hs, hpr] at h

/-- No error surfaced by PendingFutures::resume is a Monty::ResourceError. -/
theorem pendingFutures_resume_no_resource_error (pf : PendingFuturesR)
    (e : Engine) (results : List RubyValue) (err : RbError)
    (h : (PendingFuturesR.resume pf e results).1 = .error err) :
    err.kind ≠ ErrKind.resourceError := by
  cases hst : pf.state with
  | none =>
      simp [PendingFuturesR.resume, hst] at h
      rw [← h]
      simp [consumed_error]
  | some snapshot =>
      cases hc : processResults results with
      | error e2 =>
          simp [PendingFuturesR.resume, hst, hc] at h
          exact h ▸ processResults_no_resource_error results e2 hc
      | ok resolved =>
          cases hs : e.resumeFutures snapshot resolved with
          | error exc =>
              simp [PendingFuturesR.resume, hst, hc, hs] at h
              rcases map_monty_exception_kinds exc with h1 | h1 <;>
                (rw [← h]; simp [h1])
          | ok po =>
              obtain ⟨progress, out⟩ := po
              obtain ⟨pr, hpr⟩ := fromRunProgress_ok progress out
              simp [PendingFuturesR.resume, hst, hc, hs, hpr] at h

/-- No error surfaced by Run::run_with_limits is a Monty::ResourceError:
every engine failure, resource breaches included, is funnelled through
map_monty_exception, and map_resource_error is never called. -/
theorem runWithLimits_no_resource_error (e : Engine) (r : RunState)
    (inputs : List RubyValue) (limits : List (RubyValue × RubyValue))
    (err : RbError) (h : Run.runWithLimits e r inputs limits = .error err) :
    err.kind ≠ ErrKind.resourceError := by
  cases r with
  | mk inner =>
    cases inner with
    | none =>
        simp [Run.runWithLimits] at h
        rw [← h]
        simp [consumed_error]
    | some montyRun =>
        cases hc : ruby_array_to_monty_vec inputs with
        | error e2 =>
            simp [Run.runWithLimits, hc] at h
            have hc2 : rubyListToMonty inputs = .error e2 := by
              simpa [ruby_array_to_monty_vec] using hc
            rcases rubyListToMonty_error_kinds inputs e2 hc2 with h1 | h1 <;>
              (rw [← h]; simp [h1])
        | ok mi =>
            cases hp : parse_limits_hash limits with
            | error e2 =>
                simp [Run.runWithLimits, hc, hp] at h
                rcases parse_limits_hash_error_kinds limits e2 hp with h1 | h1 <;>
                  (rw [← h]; simp [h1])
            | ok rl =>
                cases hs : e.runBlocking montyRun mi (Tracker.limited rl) with
                | error exc =>
                    simp [Run.runWithLimits, hc, hp, hs] at h
                    rcases map_monty_exception_kinds exc with h1 | h1 <;>
                      (rw [← h]; simp [h1])
                | ok po =>
                    obtain ⟨result, out⟩ := po
                    simp [Run.runWithLimits, hc, hp, hs] at h
                    have hk := monty_to_ruby_error_kind result err h
                    rw [hk]
                    simp

/-- Reading back the rendering of an integer with to_i recovers it. -/
theorem rubyToI_intToDec (i : Int) : rubyToI (intToDec i) = i := by
  simp [rubyToI, decToInt_intToDec]



mutual

/-- Host-to-Value-to-host round trip on the supported subset. -/
theorem hostRoundtrip (x : RubyValue) (h : hostSupported x = true) :
    ∃ m, ruby_to_monty x = .ok m ∧ monty_to_ruby m = .ok x := by
  match x with
  | .nil => exact ⟨.none, rfl, rfl⟩
  | .bool b => exact ⟨.bool b, rfl, rfl⟩
  | .int i =>
      by_cases hr : i64Min ≤ i ∧ i ≤ i64Max
      · exact ⟨.int i, by rw [ruby_to_monty_int_eq, if_pos hr], rfl⟩
      · refine ⟨.bigInt i, by rw [ruby_to_monty_int_eq, if_neg hr], ?_⟩
        simp [monty_to_ruby, rubyToI_intToDec]
  | .float bits => exact ⟨.float bits, rfl, rfl⟩
  | .str s binary =>
      have hb : binary = false := by simpa [hostSupported] using h
      subst hb
      exact ⟨.string s, rfl, rfl⟩
  | .array items frozen =>
      have hsplit : frozen = false ∧ hostSupportedList items = true := by
        simpa [hostSupported, Bool.and_eq_true] using h
      obtain ⟨hf, hition⟩ := hsplit
      subst hf
      obtain ⟨ms, h1, h2⟩ := hostRoundtripList items hition
      exact ⟨.list ms, by simp [ruby_to_monty, h1],
        by simp [monty_to_ruby, h2]⟩
  | .hash pairs =>
      have hp : hostSupportedPairs pairs = true := by
        simpa [hostSupported] using h
      obtain ⟨ms, h1, h2⟩ := hostRoundtripPairs pairs hp
      exact ⟨.dict ms, by simp [ruby_to_monty, h1],
        by simp [monty_to_ruby, h2]⟩
  | .sym s => simp [hostSupported] at h
  | .other c => simp [hostSupported] at h

/-- Host round trip, element-wise over lists. -/
theorem hostRoundtripList (items : List RubyValue)
    (h : hostSupportedList items = true) :
    ∃ ms, rubyListToMonty items = .ok ms ∧ montyListToRuby ms = .ok items := by
  match items with
  | [] => exact ⟨[], rfl, rfl⟩
  | v :: rest =>
      rw [hostSupportedList, Bool.and_eq_true] at h
      obtain ⟨m, h1, h2⟩ := hostRoundtrip v h.1
      obtain ⟨ms, h3, h4⟩ := hostRoundtripList rest h.2
      exact ⟨m :: ms, by simp [rubyListToMonty, h1, h3],
        by simp [montyListToRuby, h2, h4]⟩

/-- Host round trip, key-and-value over hash pairs. -/
theorem hostRoundtripPairs (pairs : List (RubyValue × RubyValue))
    (h : hostSupportedPairs pairs = true) :
    ∃ ms, rubyPairsToMonty pairs = .ok ms ∧ montyPairsToRuby ms = .ok pairs := by
  match pairs with
  | [] => exact ⟨[], rfl, rfl⟩
  | (k, v) :: rest =>
      rw [hostSupportedPairs, Bool.and_eq_true, Bool.and_eq_true] at h
      obtain ⟨mk1, h1, h2⟩ := hostRoundtrip k h.1.1
      obtain ⟨mv, h3, h4⟩ := hostRoundtrip v h.1.2
      obtain ⟨ms, h5, h6⟩ := hostRoundtripPairs rest h.2
      exact ⟨(mk1, mv) :: ms, by simp [rubyPairsToMonty, h1, h3, h5],
        by simp [montyPairsToRuby, h2, h4, h6]⟩

end

mutual

/-- Value-to-host-to-Value round trip on the structurally faithful
subset. -/
theorem valueRoundtrip (v : MontyObject) (h : goodValue v = true) :
    ∃ rv, monty_to_ruby v = .ok rv ∧ ruby_to_monty rv = .ok v := by
  match v with
  | .none => exact ⟨.nil, rfl, rfl⟩
  | .bool b => exact ⟨.bool b, rfl, rfl⟩
  | .int i =>
      have hr : i64Min ≤ i ∧ i ≤ i64Max := by
        simpa [goodValue] using h
      exact ⟨.int i, rfl, by rw [ruby_to_monty_int_eq, if_pos hr]⟩
  | .bigInt b =>
      have hr : b < i64Min ∨ i64Max < b := by
        simpa [goodValue] using h
      refine ⟨.int b, by simp [monty_to_ruby, rubyToI_intToDec], ?_⟩
      rw [ruby_to_monty_int_eq, if_neg (by omega)]
  | .float bits => exact ⟨.float bits, rfl, rfl⟩
  | .string s => exact ⟨.str s false, rfl, rfl⟩
  | .list items =>
      have hl : goodValueList items = true := by simpa [goodValue] using h
      obtain ⟨rs, h1, h2⟩ := valueRoundtripList items hl
      exact ⟨.array rs false, by simp [monty_to_ruby, h1],
        by simp [ruby_to_monty, h2]⟩
  | .dict pairs =>
      have hp : goodValuePairs pairs = true := by simpa [goodValue] using h
      obtain ⟨rs, h1, h2⟩ := valueRoundtripPairs pairs hp
      exact ⟨.hash rs, by simp [monty_to_ruby, h1],
        by simp [ruby_to_monty, h2]⟩
  | .bytes s => simp [goodValue] at h
  | .tuple items => simp [goodValue] at h
  | .namedTuple ns vs => simp [goodValue] at h
  | .set items => simp [goodValue] at h
  | .frozenSet items => simp [goodValue] at h
  | .dataclass attrs => simp [goodValue] at h
  | .ellipsis => simp [goodValue] at h
  | .type d => simp [goodValue] at h
  | .builtinFunction d => simp [goodValue] at h
  | .path s => simp [goodValue] at h
  | .reprVal s => simp [goodValue] at h
  | .cycle id rendered => simp [goodValue] at h
  | .exception t a => simp [goodValue] at h

/-- Value round trip, element-wise over lists. -/
theorem valueRoundtripList (items : List MontyObject)
    (h : goodValueList items = true) :
    ∃ rs, montyListToRuby items = .ok rs ∧ rubyListToMonty rs = .ok items := by
  match items with
  | [] => exact ⟨[], rfl, rfl⟩
  | v :: rest =>
      rw [goodValueList, Bool.and_eq_true] at h
      obtain ⟨rv, h1, h2⟩ := valueRoundtrip v h.1
      obtain ⟨rs, h3, h4⟩ := valueRoundtripList rest h.2
      exact ⟨rv :: rs, by simp [montyListToRuby, h1, h3],
        by simp [rubyListToMonty, h2, h4]⟩

/-- Value round trip, key-and-value over dict pairs. -/
theorem valueRoundtripPairs (pairs : List (MontyObject × MontyObject))
    (h : goodValuePairs pairs = true) :
    ∃ rs, montyPairsToRuby pairs = .ok rs ∧ rubyPairsToMonty rs = .ok pairs := by
  match pairs with
  | [] => exact ⟨[], rfl, rfl⟩
  | (k, v) :: rest =>
      rw [goodValuePairs, Bool.and_eq_true, Bool.and_eq_true] at h
      obtain ⟨rk, h1, h2⟩ := valueRoundtrip k h.1.1
      obtain ⟨rv, h3, h4⟩ := valueRoundtrip v h.1.2
      obtain ⟨rs, h5, h6⟩ := valueRoundtripPairs rest h.2
      exact ⟨(rk, rv) :: rs, by simp [montyPairsToRuby, h1, h3, h5],
        by simp [rubyPairsToMonty, h2, h4, h6]⟩

end


/-- C1: the claimed round trip fails as stated: Tuple is outside the
claimed lossy set {Cycle, Repr, Type, BuiltinFunction}, yet toHost maps a
Tuple to a frozen Ruby array and toValue maps that array back to a List,
not a Tuple. -/
theorem c1_value_bridge_counterexample :
    monty_to_ruby (MontyObject.tuple []) = .ok (.array [] true) ∧
    ruby_to_monty (.array [] true) = .ok (MontyObject.list []) ∧
    MontyObject.list [] ≠ MontyObject.tuple [] :=
  ⟨rfl, rfl, fun h => MontyObject.noConfusion h⟩

/-- C1 (amended): toHost after toValue is the identity on the supported
host subset (nil, booleans, integers, floats, text strings, unfrozen
arrays and hashes of such values; symbols, binary strings and frozen
arrays convert but come back changed), and toValue after toHost is the
identity exactly on Values built from None, Bool, in-range Int,
out-of-range BigInt, Float, String, List and Dict — Bytes, Tuple,
NamedTuple, Set, FrozenSet, Dataclass, Ellipsis and Path also degrade,
beyond the claimed lossy set {Cycle, Repr, Type, BuiltinFunction}. -/
theorem c1_value_bridge_roundtrip :
    (∀ x : RubyValue, hostSupported x = true →
       ∃ m, ruby_to_monty x = .ok m ∧ monty_to_ruby m = .ok x) ∧
    (∀ v : MontyObject, goodValue v = true →
       ∃ rv, monty_to_ruby v = .ok rv ∧ ruby_to_monty rv = .ok v) :=
  ⟨hostRoundtrip, valueRoundtrip⟩

/-- C1 witness: both round-trip directions at concrete nested inputs. -/
theorem c1_value_bridge_witness :
    (hostSupported (.array [.int 5, .str "a" false] false) = true ∧
     ∃ m, ruby_to_monty (.array [.int 5, .str "a" false] false) = .ok m ∧
       monty_to_ruby m = .ok (.array [.int 5, .str "a" false] false)) ∧
    (goodValue (.dict [(.string "k", .int 7)]) = true ∧
     ∃ rv, monty_to_ruby (.dict [(.string "k", .int 7)]) = .ok rv ∧
       ruby_to_monty rv = .ok (.dict [(.string "k", .int 7)])) :=
  ⟨⟨by decide, c1_value_bridge_roundtrip.1 _ (by decide)⟩,
   ⟨by decide, c1_value_bridge_roundtrip.2 _ (by decide)⟩⟩

/-- C2: a successful start empties the session's cell, and every
subsequent start, blocking run variant, or code access on the consumed
session raises ConsumedError rather than silently succeeding. -/
theorem c2_start_consumes_session (e : Engine) (r : RunState)
    (inputs : List RubyValue) (p : ProgressR) (r' : RunState)
    (h : Run.start e r inputs = (.ok p, r')) :
    r'.inner = Option.none ∧
    Run.code r' = .error consumed_error ∧
    (∀ i2, (Run.start e r' i2).1 = .error consumed_error) ∧
    (∀ i2, Run.run e r' i2 = .error consumed_error) ∧
    (∀ i2 l, Run.runWithLimits e r' i2 l = .error consumed_error) ∧
    (∀ i2, Run.runCapturing e r' i2 = .error consumed_error) ∧
    (∀ i2 l, Run.runCapturingWithLimits e r' i2 l = .error consumed_error) ∧
    Run.dump r' = .error consumed_error := by
  have hr' : r' = ⟨Option.none⟩ := by
    cases r with
    | mk inner =>
      cases inner with
      | none => simp [Run.start] at h
      | some montyRun =>
          cases hc : ruby_array_to_monty_vec inputs with
          | error e2 => simp [Run.start, hc] at h
          | ok mi =>
              cases hs : e.start montyRun mi Tracker.noLimit with
              | error exc => simp [Run.start, hc, hs] at h
              | ok po =>
                  obtain ⟨progress, out⟩ := po
                  simp [Run.start, hc, hs] at h
                  exact h.2.symm
  subst hr'
  exact ⟨rfl, rfl, fun _ => rfl, fun _ => rfl, fun _ _ => rfl,
    fun _ => rfl, fun _ _ => rfl, rfl⟩

/-- C2 witness: a concrete session started once is consumed, and a second
start and a code access on it raise ConsumedError. -/
theorem c2_start_consumes_session_witness :
    ((Run.start sampleEngine ⟨some ⟨"1 + 1"⟩⟩ []).2).inner = Option.none ∧
    Run.code ((Run.start sampleEngine ⟨some ⟨"1 + 1"⟩⟩ []).2) =
      .error consumed_error ∧
    (Run.start sampleEngine ((Run.start sampleEngine ⟨some ⟨"1 + 1"⟩⟩ []).2)
      []).1 = .error consumed_error := by
  have h := c2_start_consumes_session sampleEngine ⟨some ⟨"1 + 1"⟩⟩ []
    (.complete ⟨some .none, ""⟩) ⟨Option.none⟩ rfl
  exact ⟨h.1, h.2.1, h.2.2.1 []⟩

/-- C3: the first resume of either FunctionCall variant or of
PendingFutures empties the continuation cell, and any resume attempt on an
emptied suspension raises ConsumedError (so a second resume always does). -/
theorem c3_resume_one_shot :
    (∀ (fc : FunctionCallR) (e : Engine) (v : RubyValue) (s : Nat),
       fc.state = some s →
       (FunctionCallR.resume fc e v).2.state = Option.none) ∧
    (∀ (fc : FunctionCallR) (e : Engine) (m : String) (s : Nat),
       fc.state = some s →
       (FunctionCallR.resumeWithError fc e m).2.state = Option.none) ∧
    (∀ (pf : PendingFuturesR) (e : Engine) (b : List RubyValue)
       (s : FutureSnapshotE), pf.state = some s →
       (PendingFuturesR.resume pf e b).2.state = Option.none) ∧
    (∀ (fc : FunctionCallR) (e : Engine) (v : RubyValue),
       fc.state = Option.none →
       (FunctionCallR.resume fc e v).1 = .error consumed_error) ∧
    (∀ (fc : FunctionCallR) (e : Engine) (m : String),
       fc.state = Option.none →
       (FunctionCallR.resumeWithError fc e m).1 = .error consumed_error) ∧
    (∀ (pf : PendingFuturesR) (e : Engine) (b : List RubyValue),
       pf.state = Option.none →
       (PendingFuturesR.resume pf e b).1 = .error consumed_error) ∧
    (∀ (fc : FunctionCallR) (e : Engine) (v v2 : RubyValue) (s : Nat),
       fc.state = some s →
       (FunctionCallR.resume ((FunctionCallR.resume fc e v).2) e v2).1 =
         .error consumed_error) ∧
    (∀ (pf : PendingFuturesR) (e : Engine) (b b2 : List RubyValue)
       (s : FutureSnapshotE), pf.state = some s →
       (PendingFuturesR.resume ((PendingFuturesR.resume pf e b).2) e b2).1 =
         .error consumed_error) := by
  have hA : ∀ (fc : FunctionCallR) (e : Engine) (v : RubyValue) (s : Nat),
      fc.state = some s →
      (FunctionCallR.resume fc e v).2.state = Option.none := by
    intro fc e v s hst
    simp only [FunctionCallR.resume, hst]
    cases hc : ruby_to_monty v with
    | error e2 => simp [hc]
    | ok mv =>
        cases hs : e.resumeSnap s (.ret mv) with
        | error exc => simp [hc, hs]
        | ok po => obtain ⟨progress, out⟩ := po; simp [hc, hs]
  have hB : ∀ (fc : FunctionCallR) (e : Engine) (m : String) (s : Nat),
      fc.state = some s →
      (FunctionCallR.resumeWithError fc e m).2.state = Option.none := by
    intro fc e m s hst
    simp only [FunctionCallR.resumeWithError, hst]
    cases hs : e.resumeSnap s (.error ⟨ExcType.runtimeError, some m⟩) with
    | error exc => simp [hs]
    | ok po => obtain ⟨progress, out⟩ := po; simp [hs]
  have hC : ∀ (pf : PendingFuturesR) (e : Engine) (b : List RubyValue)
      (s : FutureSnapshotE), pf.state = some s →
      (PendingFuturesR.resume pf e b).2.state = Option.none := by
    intro pf e b s hst
    simp only [PendingFuturesR.resume, hst]
    cases hc : processResults b with
    | error e2 => simp [hc]
    | ok resolved =>
        cases hs : e.resumeFutures s resolved with
        | error exc => simp [hc, hs]
        | ok po => obtain ⟨progress, out⟩ := po; simp [hc, hs]
  have hD : ∀ (fc : FunctionCallR) (e : Engine) (v : RubyValue),
      fc.state = Option.none →
      (FunctionCallR.resume fc e v).1 = .error consumed_error := by
    intro fc e v hst
    simp [FunctionCallR.resume, hst]
  have hE : ∀ (fc : FunctionCallR) (e : Engine) (m : String),
      fc.state = Option.none →
      (FunctionCallR.resumeWithError fc e m).1 = .error consumed_error := by
    intro fc e m hst
    simp [FunctionCallR.resumeWithError, hst]
  have hF : ∀ (pf : PendingFuturesR) (e : Engine) (b : List RubyValue),
      pf.state = Option.none →
      (PendingFuturesR.resume pf e b).1 = .error consumed_error := by
    intro pf e b hst
    simp [PendingFuturesR.resume, hst]
  refine ⟨hA, hB, hC, hD, hE, hF, ?_, ?_⟩
  · intro fc e v v2 s hst
    exact hD _ e v2 (hA fc e v s hst)
  · intro pf e b b2 s hst
    exact hF _ e b2 (hC pf e b s hst)

/-- C3 witness: a concrete FunctionCall and a concrete PendingFutures are
each invalidated by their first resume, and the second resume raises
ConsumedError. -/
theorem c3_resume_one_shot_witness :
    (FunctionCallR.resume ⟨"f", [], [], 1, "", some 42⟩ sampleEngine
      .nil).2.state = Option.none ∧
    (FunctionCallR.resume
      ((FunctionCallR.resume ⟨"f", [], [], 1, "", some 42⟩ sampleEngine
        .nil).2) sampleEngine .nil).1 = .error consumed_error ∧
    (PendingFuturesR.resume
      ((PendingFuturesR.resume ⟨[1], "", some ⟨[1], 7⟩⟩ sampleEngine
        []).2) sampleEngine []).1 = .error consumed_error :=
  ⟨c3_resume_one_shot.1 _ sampleEngine .nil 42 rfl,
   c3_resume_one_shot.2.2.2.2.2.2.1 _ sampleEngine .nil .nil 42 rfl,
   c3_resume_one_shot.2.2.2.2.2.2.2 _ sampleEngine [] [] ⟨[1], 7⟩ rfl⟩

/-- No error surfaced by Run::run_capturing_with_limits is a
Monty::ResourceError either. -/
theorem runCapturingWithLimits_no_resource_error (e : Engine) (r : RunState)
    (inputs : List RubyValue) (limits : List (RubyValue × RubyValue))
    (err : RbError)
    (h : Run.runCapturingWithLimits e r inputs limits = .error err) :
    err.kind ≠ ErrKind.resourceError := by
  cases r with
  | mk inner =>
    cases inner with
    | none =>
        simp [Run.runCapturingWithLimits] at h
        rw [← h]
        simp [consumed_error]
    | some montyRun =>
        cases hc : ruby_array_to_monty_vec inputs with
        | error e2 =>
            simp [Run.runCapturingWithLimits, hc] at h
            have hc2 : rubyListToMonty inputs = .error e2 := by
              simpa [ruby_array_to_monty_vec] using hc
            rcases rubyListToMonty_error_kinds inputs e2 hc2 with h1 | h1 <;>
              (rw [← h]; simp [h1])
        | ok mi =>
            cases hp : parse_limits_hash limits with
            | error e2 =>
                simp [Run.runCapturingWithLimits, hc, hp] at h
                rcases parse_limits_hash_error_kinds limits e2 hp with h1 | h1 <;>
                  (rw [← h]; simp [h1])
            | ok rl =>
                cases hs : e.runBlocking montyRun mi (Tracker.limited rl) with
                | error exc =>
                    simp [Run.runCapturingWithLimits, hc, hp, hs] at h
                    rcases map_monty_exception_kinds exc with h1 | h1 <;>
                      (rw [← h]; simp [h1])
                | ok po =>
                    obtain ⟨result, out⟩ := po
                    cases hm : monty_to_ruby result with
                    | error e2 =>
                        simp [Run.runCapturingWithLimits, hc, hp, hs, hm] at h
                        have hk := monty_to_ruby_error_kind result e2 hm
                        rw [← h, hk]
                        simp
                    | ok rr =>
                        simp [Run.runCapturingWithLimits, hc, hp, hs, hm] at h

/-- C4: a limit breach never surfaces as Monty::ResourceError: both
limited run variants funnel every engine failure through
map_monty_exception (yielding the generic Monty::Error, or SyntaxError),
while map_resource_error — the function that would report the exceeded
dimension with observed value and ceiling — is defined but never called.
Concretely, a run with max_allocations = 1 whose engine reports an
allocation breach raises the generic Monty::Error. -/
theorem c4_limits_error_not_resource_error :
    (∀ (e : Engine) (r : RunState) (inputs : List RubyValue)
       (limits : List (RubyValue × RubyValue)) (err : RbError),
       Run.runWithLimits e r inputs limits = .error err →
       err.kind ≠ ErrKind.resourceError) ∧
    (∀ (e : Engine) (r : RunState) (inputs : List RubyValue)
       (limits : List (RubyValue × RubyValue)) (err : RbError),
       Run.runCapturingWithLimits e r inputs limits = .error err →
       err.kind ≠ ErrKind.resourceError) ∧
    map_resource_error (.allocation 1 2) =
      ⟨ErrKind.resourceError,
       "allocation limit exceeded: 2 allocations (limit: 1)"⟩ ∧
    Run.runWithLimits breachEngine ⟨some ⟨"xs = [1, 2]"⟩⟩ []
        [(.sym "max_allocations", .int 1)] =
      .error ⟨ErrKind.montyError,
        "ResourceError: allocation limit exceeded: 2 allocations (limit: 1)"⟩ :=
  ⟨runWithLimits_no_resource_error, runCapturingWithLimits_no_resource_error,
   rfl, rfl⟩

/-- C4 witness: the breach run's generic error is indeed not a
Monty::ResourceError. -/
theorem c4_limits_error_witness :
    (RbError.mk ErrKind.montyError
      "ResourceError: allocation limit exceeded: 2 allocations (limit: 1)").kind ≠
      ErrKind.resourceError :=
  c4_limits_error_not_resource_error.1 breachEngine ⟨some ⟨"xs = [1, 2]"⟩⟩ []
    [(.sym "max_allocations", .int 1)]
    ⟨ErrKind.montyError,
     "ResourceError: allocation limit exceeded: 2 allocations (limit: 1)"⟩
    (by rfl)

/-- C5: dumping a Fresh session and loading the bytes reproduces a session
with the same compiled run, so started or run with identical inputs under
any engine it behaves identically (spec-modelled serializer). -/
theorem c5_dump_load_roundtrip (r : RunState) (c : CompiledRun)
    (h : r.inner = some c) :
    ∃ bytes r2, Run.dump r = .ok bytes ∧ Run.load bytes = .ok r2 ∧
      r2 = r ∧
      (∀ (e : Engine) (inputs : List RubyValue),
        Run.start e r2 inputs = Run.start e r inputs ∧
        Run.run e r2 inputs = Run.run e r inputs ∧
        Run.runCapturing e r2 inputs = Run.runCapturing e r inputs) := by
  cases r with
  | mk inner =>
    subst h
    refine ⟨engineDump c, ⟨some c⟩, rfl, ?_, rfl,
      fun e inputs => ⟨rfl, rfl, rfl⟩⟩
    simp [Run.load, engineLoad_engineDump]

/-- C5 witness: the round trip at a concrete Fresh session. -/
theorem c5_dump_load_roundtrip_witness :
    ∃ bytes r2, Run.dump ⟨some ⟨"x = 1"⟩⟩ = .ok bytes ∧
      Run.load bytes = .ok r2 ∧
      r2 = (⟨some ⟨"x = 1"⟩⟩ : RunState) ∧
      (∀ (e : Engine) (inputs : List RubyValue),
        Run.start e r2 inputs = Run.start e (⟨some ⟨"x = 1"⟩⟩ : RunState) inputs ∧
        Run.run e r2 inputs = Run.run e (⟨some ⟨"x = 1"⟩⟩ : RunState) inputs ∧
        Run.runCapturing e r2 inputs =
          Run.runCapturing e (⟨some ⟨"x = 1"⟩⟩ : RunState) inputs) :=
  c5_dump_load_roundtrip ⟨some ⟨"x = 1"⟩⟩ ⟨"x = 1"⟩ rfl

/-- C6: the claim fails as stated: no batch processed by
PendingFutures::resume can carry an error resolution — every resolution
built is a successful Return. -/
theorem c6_futures_counterexample :
    ¬ ∃ (batch : List RubyValue) (rs : List (Nat × ExternalResult))
        (x : Nat × ExternalResult) (exc : MontyException),
      processResults batch = .ok rs ∧ x ∈ rs ∧
      x.2 = ExternalResult.error exc := by
  rintro ⟨batch, rs, x, exc, h1, h2, h3⟩
  obtain ⟨v, hv⟩ := processResults_all_ret batch rs h1 x h2
  rw [h3] at hv
  exact ExternalResult.noConfusion hv

/-- C6 (amended): every pair of a resume batch carries a call id and a
success value only — each resolution handed to the engine is a Return of
the converted value (error resolutions are not expressible) — and a
successful batch re-enters the engine with exactly those resolutions. -/
theorem c6_futures_resolutions :
    (∀ (batch : List RubyValue) (rs : List (Nat × ExternalResult)),
       processResults batch = .ok rs →
       ∀ x ∈ rs, ∃ v, x.2 = ExternalResult.ret v) ∧
    (∀ (pf : PendingFuturesR) (e : Engine) (batch : List RubyValue)
       (rs : List (Nat × ExternalResult)) (s : FutureSnapshotE),
       pf.state = some s → processResults batch = .ok rs →
       (PendingFuturesR.resume pf e batch).1 =
         (match e.resumeFutures s rs with
          | .error exc => .error (map_monty_exception exc)
          | .ok (progress, out) => fromRunProgress progress out)) := by
  refine ⟨processResults_all_ret, ?_⟩
  intro pf e batch rs s hst hpr
  simp only [PendingFuturesR.resume, hst, hpr]
  cases hf : e.resumeFutures s rs with
  | error exc => simp [hf]
  | ok po => obtain ⟨progress, out⟩ := po; simp [hf]

/-- C6 witness: a concrete one-entry batch resolves to a Return and
re-enters the engine. -/
theorem c6_futures_witness :
    (∀ x ∈ [((1 : Nat), ExternalResult.ret (MontyObject.int 42))],
       ∃ v, x.2 = ExternalResult.ret v) ∧
    (PendingFuturesR.resume ⟨[1], "", some ⟨[1], 7⟩⟩ sampleEngine
       [.array [.int 1, .int 42] false]).1 =
      (match sampleEngine.resumeFutures ⟨[1], 7⟩
          [(1, .ret (.int 42))] with
       | .error exc => .error (map_monty_exception exc)
       | .ok (progress, out) => fromRunProgress progress out) :=
  ⟨c6_futures_resolutions.1 [.array [.int 1, .int 42] false]
     [(1, .ret (.int 42))] rfl,
   c6_futures_resolutions.2 ⟨[1], "", some ⟨[1], 7⟩⟩ sampleEngine
     [.array [.int 1, .int 42] false] [(1, .ret (.int 42))] ⟨[1], 7⟩ rfl rfl⟩

/-- C7: host integer conversion takes the i64 fast path when the value
fits and otherwise falls back to a BigInt through the decimal-string round
trip, losing no precision in either direction; the Value for 2 to the
power 100 has exactly the claimed decimal text, and converts back to the
same host integer. -/
theorem c7_int_fallback :
    (∀ i : Int, ruby_to_monty (.int i) =
       if i64Min ≤ i ∧ i ≤ i64Max then .ok (.int i) else .ok (.bigInt i)) ∧
    (∀ i : Int, decToInt (intToDec i) = some i) ∧
    (∀ b : Int, monty_to_ruby (.bigInt b) = .ok (.int b)) ∧
    intToDec (2 ^ 100) = "1267650600228229401496703205376" ∧
    ruby_to_monty (.int (2 ^ 100)) = .ok (.bigInt (2 ^ 100)) :=
  ⟨ruby_to_monty_int_eq, decToInt_intToDec,
   fun b => by simp [monty_to_ruby, rubyToI_intToDec],
   by decide,
   by rw [ruby_to_monty_int_eq, if_neg (by decide)]⟩

/-- C8: the claim fails as stated: boolean detection goes by the reported
class name, not by type identity, so a non-boolean host object whose class
reports the name TrueClass is converted to the boolean Value true. -/
theorem c8_bool_classification_counterexample :
    ruby_to_monty (RubyValue.other "TrueClass") = .ok (MontyObject.bool true) ∧
    RubyValue.other "TrueClass" ≠ RubyValue.bool true ∧
    RubyValue.other "TrueClass" ≠ RubyValue.bool false :=
  ⟨rfl, fun h => RubyValue.noConfusion h, fun h => RubyValue.noConfusion h⟩

/-- C8 (amended): a host value converts to a boolean Value exactly when
the class-name check detect_bool recognizes it (checked before any other
conversion rule and never by truthiness): genuine booleans always do, and
no nil, number, string, symbol, array or hash ever does — but an object of
any other class whose reported class name is TrueClass or FalseClass also
does. -/
theorem c8_bool_classification :
    (∀ (v : RubyValue) (b : Bool),
       ruby_to_monty v = .ok (.bool b) ↔ detect_bool v = some b) ∧
    (∀ b, detect_bool (.bool b) = some b) ∧
    detect_bool .nil = Option.none ∧
    (∀ i, detect_bool (.int i) = Option.none) ∧
    (∀ bits, detect_bool (.float bits) = Option.none) ∧
    (∀ s bn, detect_bool (.str s bn) = Option.none) ∧
    (∀ s, detect_bool (.sym s) = Option.none) ∧
    (∀ items fz, detect_bool (.array items fz) = Option.none) ∧
    (∀ prs, detect_bool (.hash prs) = Option.none) := by
  refine ⟨?_, fun b => by cases b <;> rfl, rfl, fun i => rfl, fun bits => rfl,
    fun s bn => rfl, fun s => rfl, fun items fz => rfl, fun prs => rfl⟩
  intro v b
  cases v with
  | nil => simp [ruby_to_monty, detect_bool, classNameOf]
  | bool b' => cases b' <;> cases b <;>
      simp [ruby_to_monty, detect_bool, classNameOf]
  | int i =>
      rw [ruby_to_monty_int_eq]
      constructor
      · intro h
        split at h <;> simp at h
      · intro h
        simp [detect_bool, classNameOf] at h
  | float bits => simp [ruby_to_monty, detect_bool, classNameOf]
  | str s bn => simp [ruby_to_monty, detect_bool, classNameOf]
  | sym s => simp [ruby_to_monty, detect_bool, classNameOf]
  | array items fz =>
      constructor
      · intro h
        cases hm : rubyListToMonty items with
        | ok ms => simp [ruby_to_monty, hm] at h
        | error e2 => simp [ruby_to_monty, hm] at h
      · intro h
        simp [detect_bool, classNameOf] at h
  | hash prs =>
      constructor
      · intro h
        cases hm : rubyPairsToMonty prs with
        | ok ms => simp [ruby_to_monty, hm] at h
        | error e2 => simp [ruby_to_monty, hm] at h
      · intro h
        simp [detect_bool, classNameOf] at h
  | other c =>
      cases hdb : detect_bool (.other c) with
      | some b' => simp [ruby_to_monty, hdb]
      | none => simp [ruby_to_monty, hdb]

/-- C9: each resume takes the continuation snapshot before validating or
converting its argument, so a resume whose argument fails conversion (or
whose batch is malformed) raises that error and still leaves the
suspension consumed — a later resume raises ConsumedError. -/
theorem c9_consume_before_validation :
    (∀ (fc : FunctionCallR) (e : Engine) (v : RubyValue) (err : RbError)
       (s : Nat), fc.state = some s → ruby_to_monty v = .error err →
       (FunctionCallR.resume fc e v).1 = .error err ∧
       (FunctionCallR.resume fc e v).2.state = Option.none ∧
       (∀ v2, (FunctionCallR.resume ((FunctionCallR.resume fc e v).2) e
         v2).1 = .error consumed_error)) ∧
    (∀ (pf : PendingFuturesR) (e : Engine) (batch : List RubyValue)
       (err : RbError) (s : FutureSnapshotE),
       pf.state = some s → processResults batch = .error err →
       (PendingFuturesR.resume pf e batch).1 = .error err ∧
       (PendingFuturesR.resume pf e batch).2.state = Option.none ∧
       (∀ b2, (PendingFuturesR.resume ((PendingFuturesR.resume pf e batch).2)
         e b2).1 = .error consumed_error)) := by
  constructor
  · intro fc e v err s hst hconv
    have h1 : FunctionCallR.resume fc e v =
        (.error err, { fc with state := Option.none }) := by
      simp [FunctionCallR.resume, hst, hconv]
    refine ⟨by rw [h1], by rw [h1], ?_⟩
    intro v2
    rw [h1]
    simp [FunctionCallR.resume]
  · intro pf e batch err s hst hpr
    have h1 : PendingFuturesR.resume pf e batch =
        (.error err, { pf with state := Option.none }) := by
      simp [PendingFuturesR.resume, hst, hpr]
    refine ⟨by rw [h1], by rw [h1], ?_⟩
    intro b2
    rw [h1]
    simp [PendingFuturesR.resume]

/-- C9 witness: an unconvertible resume argument and a malformed batch
entry raise their conversion errors and still consume the suspensions. -/
theorem c9_consume_before_validation_witness :
    (FunctionCallR.resume ⟨"f", [], [], 1, "", some 42⟩ sampleEngine
       (.other "Object")).1 =
      .error ⟨ErrKind.typeError, "cannot convert Object to a Python object"⟩ ∧
    (FunctionCallR.resume ((FunctionCallR.resume ⟨"f", [], [], 1, "", some 42⟩
       sampleEngine (.other "Object")).2) sampleEngine .nil).1 =
      .error consumed_error ∧
    (PendingFuturesR.resume ⟨[1], "", some ⟨[1], 7⟩⟩ sampleEngine
       [.int 5]).1 =
      .error ⟨ErrKind.typeError, "no implicit conversion into Array"⟩ :=
  ⟨(c9_consume_before_validation.1 ⟨"f", [], [], 1, "", some 42⟩ sampleEngine
     (.other "Object")
     ⟨ErrKind.typeError, "cannot convert Object to a Python object"⟩
     42 rfl rfl).1,
   (c9_consume_before_validation.1 ⟨"f", [], [], 1, "", some 42⟩ sampleEngine
     (.other "Object")
     ⟨ErrKind.typeError, "cannot convert Object to a Python object"⟩
     42 rfl rfl).2.2 .nil,
   (c9_consume_before_validation.2 ⟨[1], "", some ⟨[1], 7⟩⟩ sampleEngine
     [.int 5] ⟨ErrKind.typeError, "no implicit conversion into Array"⟩
     ⟨[1], 7⟩ rfl rfl).1⟩

/-- C10: interruptible execution is never resource-governed: the outcome
of Run::start depends only on the engine's no-limit behavior (the tracker
passed is always the no-limit tracker), and neither start nor any resume
operation can surface a Monty::ResourceError. -/
theorem c10_interruptible_unlimited :
    (∀ (e1 e2 : Engine) (r : RunState) (inputs : List RubyValue),
       (∀ c mi, e1.start c mi Tracker.noLimit = e2.start c mi Tracker.noLimit) →
       Run.start e1 r inputs = Run.start e2 r inputs) ∧
    (∀ e r inputs err, (Run.start e r inputs).1 = .error err →
       err.kind ≠ ErrKind.resourceError) ∧
    (∀ fc e v err, (FunctionCallR.resume fc e v).1 = .error err →
       err.kind ≠ ErrKind.resourceError) ∧
    (∀ fc e m err, (FunctionCallR.resumeWithError fc e m).1 = .error err →
       err.kind ≠ ErrKind.resourceError) ∧
    (∀ pf e b err, (PendingFuturesR.resume pf e b).1 = .error err →
       err.kind ≠ ErrKind.resourceError) := by
  refine ⟨?_, run_start_no_resource_error,
    functionCall_resume_no_resource_error,
    functionCall_resumeWithError_no_resource_error,
    pendingFutures_resume_no_resource_error⟩
  intro e1 e2 r inputs hagree
  cases r with
  | mk inner =>
    cases inner with
    | none => rfl
    | some c =>
        cases hc : ruby_array_to_monty_vec inputs with
        | error e2' => simp [Run.start, hc]
        | ok mi =>
            simp only [Run.start, hc]
            rw [hagree c mi]

/-- C10 witness: two engines agreeing on the no-limit column (one of which
fails under every limited tracker) give identical starts, and a concrete
start error is not a ResourceError. -/
theorem c10_interruptible_unlimited_witness :
    Run.start sampleEngine ⟨some ⟨"n = 1"⟩⟩ [] =
      Run.start limitedProbeEngine ⟨some ⟨"n = 1"⟩⟩ [] ∧
    consumed_error.kind ≠ ErrKind.resourceError :=
  ⟨c10_interruptible_unlimited.1 sampleEngine limitedProbeEngine _ []
     (fun _ _ => rfl),
   c10_interruptible_unlimited.2.1 sampleEngine ⟨Option.none⟩ []
     consumed_error rfl⟩
